import Mathlib

/-!
# Header masking of `global-metadata.dat` (libil2cpp)

A shallow embedding of `src/utils/MetadataCipher.cpp` (the ChaCha20 block
function and `CipherMetadataHeader`) and of `DecryptGlobalMetadataHeader` in
`src/vm/MetadataLoader.cpp`, followed by the properties proved about them.

Conventions of the embedding:

* a `uint8_t` / `uint32_t` value is a `Nat`; every operation that can leave the
  range in C++ carries its explicit `% 2 ^ 32`;
* an array or a pointed-to region is a `List Nat`; `p + k` is `p.drop k`;
  a read `p[i]` is `p.getD i 0` and a write `p[i] = v` is `p.set i v`;
* `int64_t` / `int32_t` values are `Int`; `size_t` has 64 bits and the host is
  little-endian (the byte order `std::memcpy` into an `int32_t` sees);
* `Logging::Write` appends a record to a list of diagnostics that the function
  returns next to the buffer.
-/

namespace il2cpp
namespace utils

/-! ## Common utilities -/

/-- Rotation `RotL32(v, c)`: `(v << c) | (v >> (32 - c))` on `uint32_t`. -/
def RotL32 (v c : Nat) : Nat :=
  ((v <<< c) % 2 ^ 32) ||| (v >>> (32 - c))

/-- The function `QuarterRound(a, b, c, d)`; the values left in the four
references are returned as a tuple. -/
def QuarterRound (a b c d : Nat) : Nat × Nat × Nat × Nat :=
  let a := (a + b) % 2 ^ 32
  let d := d ^^^ a
  let d := RotL32 d 16
  let c := (c + d) % 2 ^ 32
  let b := b ^^^ c
  let b := RotL32 b 12
  let a := (a + b) % 2 ^ 32
  let d := d ^^^ a
  let d := RotL32 d 8
  let c := (c + d) % 2 ^ 32
  let b := b ^^^ c
  let b := RotL32 b 7
  (a, b, c, d)

/-- The function `LoadLE(p)`: the little-endian 32-bit word at `p[0..3]`. -/
def LoadLE (p : List Nat) : Nat :=
  p.getD 0 0 |||
  ((p.getD 1 0 <<< 8) % 2 ^ 32) |||
  ((p.getD 2 0 <<< 16) % 2 ^ 32) |||
  ((p.getD 3 0 <<< 24) % 2 ^ 32)

/-- The function `StoreLE(v, p)`: the four bytes written to `p[0..3]`. -/
def StoreLE (v : Nat) : List Nat :=
  [v &&& 0xFF, (v >>> 8) &&& 0xFF, (v >>> 16) &&& 0xFF, (v >>> 24) &&& 0xFF]

/-- The ChaCha20 constants `"expa" "nd 3" "2-by" "te k"`. -/
def constants : List Nat := [0x61707865, 0x3320646e, 0x79622d32, 0x6b206574]

/-- A call `QuarterRound(working[i], working[j], working[k], working[l])`:
the four cells are read, mixed, and written back. -/
def quarterRoundAt (working : List Nat) (i j k l : Nat) : List Nat :=
  let r := QuarterRound (working.getD i 0) (working.getD j 0)
    (working.getD k 0) (working.getD l 0)
  (((working.set i r.1).set j r.2.1).set k r.2.2.1).set l r.2.2.2

/-- One iteration of the round loop: four column quarter-rounds, then four
diagonal ones. -/
def doubleRound (working : List Nat) : List Nat :=
  let working := quarterRoundAt working 0 4 8 12
  let working := quarterRoundAt working 1 5 9 13
  let working := quarterRoundAt working 2 6 10 14
  let working := quarterRoundAt working 3 7 11 15
  let working := quarterRoundAt working 0 5 10 15
  let working := quarterRoundAt working 1 6 11 12
  let working := quarterRoundAt working 2 7 8 13
  quarterRoundAt working 3 4 9 14

/-- The loop `for (int i = 0; i < n; ++i) { double round }`. -/
def rounds : Nat → List Nat → List Nat
  | 0, working => working
  | n + 1, working => rounds n (doubleRound working)

/-- The initial state of `ChaCha20Block`: constants, eight key words, the
counter, three nonce words. -/
def initState (key : List Nat) (counter : Nat) (nonce : List Nat) : List Nat :=
  [ constants.getD 0 0, constants.getD 1 0, constants.getD 2 0, constants.getD 3 0,
    LoadLE (key.drop 0), LoadLE (key.drop 4), LoadLE (key.drop 8), LoadLE (key.drop 12),
    LoadLE (key.drop 16), LoadLE (key.drop 20), LoadLE (key.drop 24), LoadLE (key.drop 28),
    counter,
    LoadLE (nonce.drop 0), LoadLE (nonce.drop 4), LoadLE (nonce.drop 8) ]

/-- The loop `for i < 16: working[i] += state[i]`. -/
def addState (working state : List Nat) : List Nat :=
  List.zipWith (fun w s => (w + s) % 2 ^ 32) working state

/-- The loop `for i < 16: StoreLE(working[i], output + 4 * i)`. -/
def serialize : List Nat → List Nat
  | [] => []
  | w :: ws => StoreLE w ++ serialize ws

/-- The function `ChaCha20Block(output, key, counter, nonce)`: the 64 bytes
written to `output`. -/
def ChaCha20Block (key : List Nat) (counter : Nat) (nonce : List Nat) : List Nat :=
  let state := initState key counter nonce
  let working := state
  let working := rounds 10 working
  let working := addState working state
  serialize working

/-! ## Key and nonce -/

/-- The embedded 32-byte key. -/
def kKey : List Nat :=
  [ 0x83, 0x45, 0x12, 0xA9,
    0xC1, 0x6B, 0x39, 0x5F,
    0x77, 0x2D, 0x90, 0xE4,
    0xB8, 0xFA, 0x01, 0x3C,
    0x65, 0x9A, 0xDE, 0x07,
    0x44, 0x21, 0x58, 0xB3,
    0xCF, 0xEE, 0x72, 0x19,
    0x0D, 0xA4, 0x53, 0xF6 ]

/-- The embedded 12-byte nonce. -/
def kNonce : List Nat :=
  [ 0x10, 0x32, 0x54, 0x76,
    0x98, 0xBA, 0xDC, 0xFE,
    0x01, 0x23, 0x45, 0x67 ]

/-! ## XOR of the ChaCha20 keystream over the header region -/

/-- The inner loop `for (i = 0; i < n; ++i) data[offset + i] ^= block[i]`,
by recursion on the bound `n`: the bytes at `offset + 0`, ..., `offset + n - 1`
are updated in ascending order. -/
def xorBlock (data block : List Nat) (offset : Nat) : Nat → List Nat
  | 0 => data
  | n + 1 =>
    let data := xorBlock data block offset n
    data.set (offset + n) (data.getD (offset + n) 0 ^^^ block.getD n 0)

/-- The loop `while (offset < size) { ... }` of `CipherMetadataHeader`, started
in the state `(data, counter, offset)`; it returns the state in which the loop
is left. `counter` is a `uint32_t`, so `++counter` wraps at `2 ^ 32`; `offset`
is a `size_t` that never exceeds `size`. -/
def cipherLoop (size : Nat) (data : List Nat) (counter offset : Nat) :
    List Nat × Nat × Nat :=
  if offset < size then
    let block := ChaCha20Block kKey counter kNonce
    let bytesThisRound := min 64 (size - offset)
    let data := xorBlock data block offset bytesThisRound
    cipherLoop size data ((counter + 1) % 2 ^ 32) (offset + bytesThisRound)
  else
    (data, counter, offset)
termination_by size - offset
decreasing_by omega

/-- The function `CipherMetadataHeader(data, size)`: the contents of the region
`data` points to after the call. A region is a list, so the test `data == NULL`
has no counterpart. -/
def CipherMetadataHeader (data : List Nat) (size : Nat) : List Nat :=
  if size = 0 then data
  else (cipherLoop size data 0 0).1

end utils

namespace vm

open il2cpp.utils

/-- One call of `Logging::Write`: the format string, the path and the numeric
argument passed to it. -/
structure Diagnostic where
  format : String
  path : String
  arg : Int
deriving DecidableEq, Repr

/-- The value of a 32-bit pattern as an `int32_t` (two's complement). -/
def toInt32 (n : Nat) : Int :=
  if n % 2 ^ 32 < 2 ^ 31 then ((n % 2 ^ 32 : Nat) : Int)
  else ((n % 2 ^ 32 : Nat) : Int) - 2 ^ 32

/-- The cast `static_cast<size_t>(x)` of an `int64_t x`, with a 64-bit `size_t`. -/
def toSizeT (x : Int) : Nat :=
  (x % 2 ^ 64).toNat

/-- The constant `const int32_t kMetadataMagic = 0xFAB11BAF;`: the pattern
`0xFAB11BAF` converted to `int32_t`. -/
def kMetadataMagic : Int := toInt32 0xFAB11BAF

/-- The constant `const size_t kHeaderEncryptSize = 0x200;`. -/
def kHeaderEncryptSize : Nat := 0x200

/-- The read `int32_t sanity = 0; std::memcpy(&sanity, buffer, sizeof(int32_t));`
on a little-endian host: the first four bytes of the buffer as an `int32_t`. -/
def readSanity (buffer : List Nat) : Int :=
  toInt32 (buffer.getD 0 0 + 2 ^ 8 * buffer.getD 1 0 + 2 ^ 16 * buffer.getD 2 0
    + 2 ^ 24 * buffer.getD 3 0)

/-- The function `DecryptGlobalMetadataHeader(buffer, fileSize, path)`: the
contents of the buffer after the call, and the diagnostics written to the log,
in order. -/
def DecryptGlobalMetadataHeader (buffer : List Nat) (fileSize : Int) (path : String) :
    List Nat × List Diagnostic :=
  if fileSize < 8 then
    (buffer, [⟨"ERROR: Metadata too small: %s (size=%lld)", path, fileSize⟩])
  else
    let sanity := readSanity buffer
    if sanity ≠ kMetadataMagic then
      (buffer,
        [⟨"WARNING: Metadata sanity mismatch for %s (0x%08X), skip header decrypt.",
          path, sanity⟩])
    else
      let encOffset := 8
      let maxSize := toSizeT fileSize
      if maxSize ≤ encOffset then
        (buffer,
          [⟨"WARNING: Metadata file too small for header encrypt region: %s (size=%lld)",
            path, fileSize⟩])
      else
        let encSize := min kHeaderEncryptSize (maxSize - encOffset)
        (buffer.take encOffset ++ CipherMetadataHeader (buffer.drop encOffset) encSize, [])

end vm
end il2cpp

open il2cpp.utils il2cpp.vm

/-! ## Vocabulary of the statements -/

/-- Every element of the list is a byte value. -/
def isBytes (l : List Nat) : Prop := ∀ b ∈ l, b < 256

/-- Decision procedure for `isBytes`. -/
instance (l : List Nat) : Decidable (isBytes l) := by
  unfold isBytes; infer_instance

/-- The marker `0xFAB11BAF` as it lies in the file: `AF 1B B1 FA`. -/
def markerBytes : List Nat := [0xAF, 0x1B, 0xB1, 0xFA]

/-- The keystream byte the loop of `CipherMetadataHeader` uses at position `j`:
the counter is a `uint32_t`, so the block index is taken modulo `2 ^ 32`. -/
def loopKeystream (j : Nat) : Nat :=
  (ChaCha20Block kKey ((j / 64) % 2 ^ 32) kNonce).getD (j % 64) 0

/-! ## One iteration of the block loop, and the calls of the block function -/

/-- One pass through the body of the loop `while (offset < size)` of
`CipherMetadataHeader`, on the state `(data, counter, offset)`: a block is
generated, `bytesThisRound` bytes are XORed, counter and offset advance. -/
def cipherStep (size : Nat) (s : List Nat × Nat × Nat) : List Nat × Nat × Nat :=
  let block := ChaCha20Block kKey s.2.1 kNonce
  let bytesThisRound := min 64 (size - s.2.2)
  (xorBlock s.1 block s.2.2 bytesThisRound, (s.2.1 + 1) % 2 ^ 32, s.2.2 + bytesThisRound)

/-- A recorded call `ChaCha20Block(block, kKey, counter, kNonce)`: the block it
writes, and the record of the calls made so far extended by the counter that
is passed to this call. -/
def recordedBlock (counter : Nat) (calls : List Nat) : List Nat × List Nat :=
  (ChaCha20Block kKey counter kNonce, calls ++ [counter])

/-- The loop of `CipherMetadataHeader` with its calls of `ChaCha20Block`
recorded: next to the state in which the loop is left it returns the counters
passed to `ChaCha20Block`, in the order of the calls. The block is obtained
through `recordedBlock`, so what is recorded is what is passed. -/
def cipherLoopRecorded (size : Nat) (data : List Nat) (counter offset : Nat)
    (calls : List Nat) : (List Nat × Nat × Nat) × List Nat :=
  if offset < size then
    let r := recordedBlock counter calls
    let block := r.1
    let bytesThisRound := min 64 (size - offset)
    let data := xorBlock data block offset bytesThisRound
    cipherLoopRecorded size data ((counter + 1) % 2 ^ 32) (offset + bytesThisRound) r.2
  else
    ((data, counter, offset), calls)
termination_by size - offset
decreasing_by omega

/-- The function `CipherMetadataHeader(data, size)` with its calls of
`ChaCha20Block` recorded: the contents of the region after the call, and the
counters passed, in order. -/
def CipherMetadataHeaderRecorded (data : List Nat) (size : Nat) : List Nat × List Nat :=
  if size = 0 then (data, [])
  else
    let r := cipherLoopRecorded size data 0 0 []
    (r.1.1, r.2)

/-- The function `DecryptGlobalMetadataHeader(buffer, fileSize, path)` with
its calls of `ChaCha20Block` recorded: the buffer and the log after the call,
and the counters passed to `ChaCha20Block`, in order. -/
def DecryptGlobalMetadataHeaderRecorded (buffer : List Nat) (fileSize : Int)
    (path : String) : (List Nat × List Diagnostic) × List Nat :=
  if fileSize < 8 then
    ((buffer, [⟨"ERROR: Metadata too small: %s (size=%lld)", path, fileSize⟩]), [])
  else
    let sanity := readSanity buffer
    if sanity ≠ kMetadataMagic then
      ((buffer,
        [⟨"WARNING: Metadata sanity mismatch for %s (0x%08X), skip header decrypt.",
          path, sanity⟩]), [])
    else
      let encOffset := 8
      let maxSize := toSizeT fileSize
      if maxSize ≤ encOffset then
        ((buffer,
          [⟨"WARNING: Metadata file too small for header encrypt region: %s (size=%lld)",
            path, fileSize⟩]), [])
      else
        let encSize := min kHeaderEncryptSize (maxSize - encOffset)
        let r := CipherMetadataHeaderRecorded (buffer.drop encOffset) encSize
        ((buffer.take encOffset ++ r.1, []), r.2)

/-! ## Inverse of the quarter-round

These two functions are not in the source; they are the candidates for the
inverse in the statement that `QuarterRound` is a bijection. -/

/-- Rotation of a `uint32_t` to the right: `(v >> c) | (v << (32 - c))`. -/
def RotR32 (v c : Nat) : Nat :=
  (v >>> c) ||| ((v <<< (32 - c)) % 2 ^ 32)

/-- The steps of `QuarterRound` undone in reverse order: the rotations by 7, 8,
12 and 16 are rotated back, the XORs repeated, the additions subtracted modulo
`2 ^ 32`. -/
def QuarterRoundInv (a b c d : Nat) : Nat × Nat × Nat × Nat :=
  let b := RotR32 b 7
  let b := b ^^^ c
  let c := (c + 2 ^ 32 - d) % 2 ^ 32
  let d := RotR32 d 8
  let d := d ^^^ a
  let a := (a + 2 ^ 32 - b) % 2 ^ 32
  let b := RotR32 b 12
  let b := b ^^^ c
  let c := (c + 2 ^ 32 - d) % 2 ^ 32
  let d := RotR32 d 16
  let d := d ^^^ a
  let a := (a + 2 ^ 32 - b) % 2 ^ 32
  (a, b, c, d)

/-- The four components are 32-bit words. -/
def isWords (r : Nat × Nat × Nat × Nat) : Prop :=
  r.1 < 2 ^ 32 ∧ r.2.1 < 2 ^ 32 ∧ r.2.2.1 < 2 ^ 32 ∧ r.2.2.2 < 2 ^ 32

/-- Decision procedure for `isWords`. -/
instance (r : Nat × Nat × Nat × Nat) : Decidable (isWords r) := by
  unfold isWords; infer_instance

/-- A function of four words applied to a quadruple. -/
def onWords {α : Type} (f : Nat → Nat → Nat → Nat → α) (r : Nat × Nat × Nat × Nat) : α :=
  f r.1 r.2.1 r.2.2.1 r.2.2.2

/-- The first four bytes of the blocks for the counters 0 to 7 under the
embedded key and nonce, as `ChaCha20Block` computes them (checked in
`ChaCha20Block_first_bytes`). -/
def blockPrefixes : List (List Nat) :=
  [[187, 71, 175, 98], [236, 229, 126, 117], [54, 52, 197, 38], [201, 3, 74, 154],
   [64, 149, 11, 147], [83, 97, 191, 31], [130, 218, 240, 214], [116, 78, 8, 75]]

/-! ## The inner XOR loop -/

theorem xorBlock_length (data block : List Nat) (offset n : Nat) :
    (xorBlock data block offset n).length = data.length := by
  induction n with
  | zero => rfl
  | succ n ih => simp [xorBlock, ih]

theorem xorBlock_getElem? (data block : List Nat) (offset n j : Nat) :
    (xorBlock data block offset n)[j]? =
      if offset ≤ j ∧ j < offset + n then
        data[j]?.map (fun x => x ^^^ block.getD (j - offset) 0)
      else data[j]? := by
  induction n with
  | zero =>
    have h : ¬ (offset ≤ j ∧ j < offset + 0) := by omega
    rw [xorBlock, if_neg h]
  | succ n ih =>
    simp only [xorBlock, List.getElem?_set, xorBlock_length]
    by_cases hj : offset + n = j
    · subst hj
      rw [if_pos rfl, List.getD_eq_getElem?_getD, ih]
      have h1 : ¬ (offset ≤ offset + n ∧ offset + n < offset + n) := by omega
      have h2 : offset ≤ offset + n ∧ offset + n < offset + (n + 1) := by omega
      rw [if_neg h1, if_pos h2]
      by_cases hl : offset + n < data.length
      · simp [hl, List.getElem?_eq_getElem hl]
      · simp [hl, List.getElem?_eq_none (Nat.le_of_not_lt hl)]
    · rw [if_neg hj, ih]
      by_cases h1 : offset ≤ j ∧ j < offset + n
      · have h2 : offset ≤ j ∧ j < offset + (n + 1) := by omega
        rw [if_pos h1, if_pos h2]
      · have h2 : ¬ (offset ≤ j ∧ j < offset + (n + 1)) := by omega
        rw [if_neg h1, if_neg h2]

/-! ## The block loop -/

theorem cipherLoop_exit (size : Nat) (data : List Nat) (counter offset : Nat)
    (h : size ≤ offset) :
    cipherLoop size data counter offset = (data, counter, offset) := by
  rw [cipherLoop, if_neg (Nat.not_lt.mpr h)]

theorem cipherLoop_step (size : Nat) (data : List Nat) (counter offset : Nat)
    (h : offset < size) :
    cipherLoop size data counter offset =
      cipherLoop size
        (xorBlock data (ChaCha20Block kKey counter kNonce) offset (min 64 (size - offset)))
        ((counter + 1) % 2 ^ 32) (offset + min 64 (size - offset)) := by
  rw [cipherLoop, if_pos h]

theorem cipherLoop_getElem? (size : Nat) :
    ∀ (m k : Nat) (data : List Nat) (j : Nat), size - 64 * k ≤ m →
      (cipherLoop size data (k % 2 ^ 32) (64 * k)).1[j]? =
        if 64 * k ≤ j ∧ j < size then data[j]?.map (fun x => x ^^^ loopKeystream j)
        else data[j]? := by
  intro m
  induction m with
  | zero =>
    intro k data j hm
    rw [cipherLoop_exit size data _ _ (by omega)]
    have h : ¬ (64 * k ≤ j ∧ j < size) := by omega
    rw [if_neg h]
  | succ m ih =>
    intro k data j hm
    by_cases hlt : 64 * k < size
    · rw [cipherLoop_step size data _ _ hlt]
      by_cases hfull : 64 ≤ size - 64 * k
      · have hmin : min 64 (size - 64 * k) = 64 := Nat.min_eq_left hfull
        have hoff : 64 * k + 64 = 64 * (k + 1) := by ring
        have hctr : (k % 2 ^ 32 + 1) % 2 ^ 32 = (k + 1) % 2 ^ 32 := by
          rw [Nat.add_mod k 1, Nat.add_mod (k % 2 ^ 32) 1, Nat.mod_mod]
        rw [hmin, hctr, hoff, ih (k + 1) _ j (by omega), xorBlock_getElem?]
        by_cases hj : 64 * k ≤ j ∧ j < 64 * k + 64
        · have h1 : ¬ (64 * (k + 1) ≤ j ∧ j < size) := by omega
          have h2 : 64 * k ≤ j ∧ j < size := by omega
          have hq : j / 64 = k := by omega
          have hr : j % 64 = j - 64 * k := by omega
          rw [if_neg h1, if_pos hj, if_pos h2]
          simp only [loopKeystream, hq, hr]
        · rw [if_neg hj]
          by_cases h1 : 64 * (k + 1) ≤ j ∧ j < size
          · have h2 : 64 * k ≤ j ∧ j < size := by omega
            rw [if_pos h1, if_pos h2]
          · have h2 : ¬ (64 * k ≤ j ∧ j < size) := by omega
            rw [if_neg h1, if_neg h2]
      · have hmin : min 64 (size - 64 * k) = size - 64 * k :=
          Nat.min_eq_right (by omega)
        have hoff : 64 * k + (size - 64 * k) = size := by omega
        rw [hmin, hoff, cipherLoop_exit size _ _ _ (Nat.le_refl _), xorBlock_getElem?]
        by_cases hj : 64 * k ≤ j ∧ j < size
        · have h1 : 64 * k ≤ j ∧ j < 64 * k + (size - 64 * k) := by omega
          have hq : j / 64 = k := by omega
          have hr : j % 64 = j - 64 * k := by omega
          rw [if_pos hj, if_pos h1]
          simp only [loopKeystream, hq, hr]
        · have h1 : ¬ (64 * k ≤ j ∧ j < 64 * k + (size - 64 * k)) := by omega
          rw [if_neg hj, if_neg h1]
    · rw [cipherLoop_exit size data _ _ (by omega)]
      have h : ¬ (64 * k ≤ j ∧ j < size) := by omega
      rw [if_neg h]

/-- Closed form of `CipherMetadataHeader`: position `j < size` is XORed with
its keystream byte, every other position is kept. -/
theorem CipherMetadataHeader_getElem? (data : List Nat) (size j : Nat) :
    (CipherMetadataHeader data size)[j]? =
      if j < size then data[j]?.map (fun x => x ^^^ loopKeystream j) else data[j]? := by
  unfold CipherMetadataHeader
  by_cases hs : size = 0
  · subst hs; simp
  · rw [if_neg hs]
    have h := cipherLoop_getElem? size size 0 data j (by omega)
    simp only [Nat.zero_mod, Nat.mul_zero, Nat.zero_le, true_and] at h
    exact h

theorem CipherMetadataHeader_twice (data : List Nat) (size : Nat) :
    CipherMetadataHeader (CipherMetadataHeader data size) size = data := by
  apply List.ext_getElem?
  intro j
  rw [CipherMetadataHeader_getElem?, CipherMetadataHeader_getElem?]
  by_cases hj : j < size
  · rw [if_pos hj, if_pos hj, Option.map_map]
    have hf : ((fun x => x ^^^ loopKeystream j) ∘ fun x => x ^^^ loopKeystream j) = id := by
      funext x
      simp [Function.comp, Nat.xor_assoc]
    rw [hf, Option.map_id, id]
  · rw [if_neg hj, if_neg hj]

theorem CipherMetadataHeader_length (data : List Nat) (size : Nat) :
    (CipherMetadataHeader data size).length = data.length := by
  have key : ∀ n : Nat, (CipherMetadataHeader data size)[n]? = none ↔ data[n]? = none := by
    intro n
    rw [CipherMetadataHeader_getElem?]
    split <;> simp
  have h1 := (key data.length).mpr (List.getElem?_eq_none (Nat.le_refl _))
  have h2 := (key (CipherMetadataHeader data size).length).mp
    (List.getElem?_eq_none (Nat.le_refl _))
  rw [List.getElem?_eq_none_iff] at h1 h2
  omega

/-! ## The block function always writes 64 bytes -/

theorem quarterRoundAt_length (working : List Nat) (i j k l : Nat) :
    (quarterRoundAt working i j k l).length = working.length := by
  simp [quarterRoundAt]

theorem doubleRound_length (working : List Nat) :
    (doubleRound working).length = working.length := by
  simp [doubleRound, quarterRoundAt_length]

theorem rounds_length (n : Nat) (working : List Nat) :
    (rounds n working).length = working.length := by
  induction n generalizing working with
  | zero => rfl
  | succ n ih => rw [rounds, ih, doubleRound_length]

theorem serialize_length (ws : List Nat) : (serialize ws).length = 4 * ws.length := by
  induction ws with
  | nil => rfl
  | cons w ws ih => simp [serialize, StoreLE, ih]; omega

theorem ChaCha20Block_length (key : List Nat) (counter : Nat) (nonce : List Nat) :
    (ChaCha20Block key counter nonce).length = 64 := by
  simp [ChaCha20Block, serialize_length, addState, rounds_length, initState]

/-! ## The sanity marker -/

theorem readSanity_of_marker (buffer : List Nat) (h : buffer.take 4 = markerBytes) :
    readSanity buffer = kMetadataMagic := by
  rcases buffer with _ | ⟨b0, _ | ⟨b1, _ | ⟨b2, _ | ⟨b3, rest⟩⟩⟩⟩ <;>
    simp [markerBytes] at h
  obtain ⟨h0, h1, h2, h3⟩ := h
  subst h0 h1 h2 h3
  simp only [readSanity, List.getD_cons_zero, List.getD_cons_succ]
  rfl

theorem toInt32_injOn (m n : Nat) (hm : m < 2 ^ 32) (hn : n < 2 ^ 32)
    (h : toInt32 m = toInt32 n) : m = n := by
  unfold toInt32 at h
  rw [Nat.mod_eq_of_lt hm, Nat.mod_eq_of_lt hn] at h
  split at h <;> split at h <;> omega

theorem marker_of_readSanity (buffer : List Nat) (hb : isBytes buffer)
    (h : readSanity buffer = kMetadataMagic) : buffer.take 4 = markerBytes := by
  unfold readSanity kMetadataMagic at h
  have hget : ∀ i, buffer.getD i 0 < 256 := by
    intro i
    rw [List.getD_eq_getElem?_getD]
    cases hi : buffer[i]? with
    | none => simp
    | some b => exact hb b (List.getElem?_mem hi)
  have h0 := hget 0
  have h1 := hget 1
  have h2 := hget 2
  have h3 := hget 3
  have hsum := toInt32_injOn _ _ (by omega) (by norm_num) h
  rcases buffer with _ | ⟨b0, _ | ⟨b1, _ | ⟨b2, _ | ⟨b3, rest⟩⟩⟩⟩ <;>
    simp at hsum h0 h1 h2 h3 <;> try omega
  simp only [List.take, markerBytes]
  have e0 : b0 = 0xAF := by omega
  have e1 : b1 = 0x1B := by omega
  have e2 : b2 = 0xB1 := by omega
  have e3 : b3 = 0xFA := by omega
  rw [e0, e1, e2, e3]

theorem toSizeT_of_nonneg (x : Int) (h0 : 0 ≤ x) (h1 : x < 2 ^ 64) :
    toSizeT x = x.toNat := by
  unfold toSizeT
  rw [Int.emod_eq_of_lt h0 h1]

/-! ## The four outcomes of `DecryptGlobalMetadataHeader` -/

theorem decrypt_small (buffer : List Nat) (fileSize : Int) (path : String)
    (h : fileSize < 8) :
    DecryptGlobalMetadataHeader buffer fileSize path =
      (buffer, [⟨"ERROR: Metadata too small: %s (size=%lld)", path, fileSize⟩]) := by
  simp [DecryptGlobalMetadataHeader, h]

theorem decrypt_mismatch (buffer : List Nat) (fileSize : Int) (path : String)
    (h : ¬ fileSize < 8) (hs : readSanity buffer ≠ kMetadataMagic) :
    DecryptGlobalMetadataHeader buffer fileSize path =
      (buffer,
        [⟨"WARNING: Metadata sanity mismatch for %s (0x%08X), skip header decrypt.",
          path, readSanity buffer⟩]) := by
  simp [DecryptGlobalMetadataHeader, h, hs]

theorem decrypt_noRoom (buffer : List Nat) (fileSize : Int) (path : String)
    (h : ¬ fileSize < 8) (hs : readSanity buffer = kMetadataMagic)
    (hr : toSizeT fileSize ≤ 8) :
    DecryptGlobalMetadataHeader buffer fileSize path =
      (buffer,
        [⟨"WARNING: Metadata file too small for header encrypt region: %s (size=%lld)",
          path, fileSize⟩]) := by
  simp [DecryptGlobalMetadataHeader, h, hs, hr]

theorem decrypt_applied (buffer : List Nat) (fileSize : Int) (path : String)
    (h : ¬ fileSize < 8) (hs : readSanity buffer = kMetadataMagic)
    (hr : ¬ toSizeT fileSize ≤ 8) :
    DecryptGlobalMetadataHeader buffer fileSize path =
      (buffer.take 8 ++
        CipherMetadataHeader (buffer.drop 8) (min 0x200 (toSizeT fileSize - 8)), []) := by
  simp [DecryptGlobalMetadataHeader, h, hs, hr, kHeaderEncryptSize]

theorem toSizeT_length (buffer : List Nat) (h : buffer.length < 2 ^ 63) :
    toSizeT (buffer.length : Int) = buffer.length := by
  rw [toSizeT_of_nonneg _ (by omega) (by omega), Int.toNat_natCast]

/-! ## Claims -/

/-- C1: for a buffer whose first four bytes are the marker `AF 1B B1 FA`, and
`fileSize` equal to its length, applying `DecryptGlobalMetadataHeader` twice
restores the buffer byte for byte. -/
theorem DecryptGlobalMetadataHeader_involution (buffer : List Nat) (path path' : String)
    (hmarker : buffer.take 4 = markerBytes) :
    (DecryptGlobalMetadataHeader
      (DecryptGlobalMetadataHeader buffer buffer.length path).1 buffer.length path').1
      = buffer := by
  have hs := readSanity_of_marker buffer hmarker
  by_cases h8 : (buffer.length : Int) < 8
  · rw [decrypt_small _ _ _ h8]
    simp only
    rw [decrypt_small _ _ _ h8]
  · by_cases hr : toSizeT buffer.length ≤ 8
    · rw [decrypt_noRoom _ _ _ h8 hs hr]
      simp only
      rw [decrypt_noRoom _ _ _ h8 hs hr]
    · rw [decrypt_applied _ _ _ h8 hs hr]
      simp only
      have hlen : (buffer.take 8).length = 8 := by
        rw [List.length_take]
        omega
      have hm2 : (buffer.take 8 ++ CipherMetadataHeader (buffer.drop 8)
          (min 0x200 (toSizeT buffer.length - 8))).take 4 = markerBytes := by
        rw [List.take_append_of_le_length (by omega), List.take_take]
        exact hmarker
      rw [decrypt_applied _ _ _ h8 (readSanity_of_marker _ hm2) hr]
      simp only
      rw [List.take_left' hlen, List.drop_left' hlen, CipherMetadataHeader_twice,
        List.take_append_drop]

theorem DecryptGlobalMetadataHeader_involution_witness :
    [0xAF, 0x1B, 0xB1, 0xFA, 0x1D, 0, 0, 0, 0x58, 0x01, 0, 0].take 4 = markerBytes ∧
    (DecryptGlobalMetadataHeader
      (DecryptGlobalMetadataHeader [0xAF, 0x1B, 0xB1, 0xFA, 0x1D, 0, 0, 0, 0x58, 0x01, 0, 0]
        ([0xAF, 0x1B, 0xB1, 0xFA, 0x1D, 0, 0, 0, 0x58, 0x01, 0, 0] : List Nat).length
        "global-metadata.dat").1
      ([0xAF, 0x1B, 0xB1, 0xFA, 0x1D, 0, 0, 0, 0x58, 0x01, 0, 0] : List Nat).length
      "global-metadata.dat").1
      = [0xAF, 0x1B, 0xB1, 0xFA, 0x1D, 0, 0, 0, 0x58, 0x01, 0, 0] :=
  ⟨by decide, DecryptGlobalMetadataHeader_involution _ _ _ (by decide)⟩

/-- C2: for a buffer of length `size > 8` (an `int64_t`) that starts with the
marker, and `w = min(0x200, size - 8)`, every `i < w` has
`out[8 + i] = in[8 + i] XOR ChaCha20Block(kKey, i / 64, kNonce)[i mod 64]`,
where the block is 64 bytes long. -/
theorem DecryptGlobalMetadataHeader_window (buffer : List Nat) (path : String) (i : Nat)
    (hsize : 8 < buffer.length) (hint : buffer.length < 2 ^ 63)
    (hmarker : buffer.take 4 = markerBytes)
    (hi : i < min 0x200 (buffer.length - 8)) :
    (DecryptGlobalMetadataHeader buffer buffer.length path).1[8 + i]? =
      some (buffer.getD (8 + i) 0 ^^^
        (ChaCha20Block kKey (i / 64) kNonce).getD (i % 64) 0)
    ∧ (ChaCha20Block kKey (i / 64) kNonce).length = 64 := by
  refine ⟨?_, ChaCha20Block_length _ _ _⟩
  have hs := readSanity_of_marker buffer hmarker
  have hz := toSizeT_length buffer hint
  have hlen : (buffer.take 8).length = 8 := by
    rw [List.length_take]
    omega
  have hi2 : i < 0x200 ∧ i < buffer.length - 8 := by omega
  have hin : 8 + i < buffer.length := by omega
  rw [decrypt_applied _ _ _ (by omega) hs (by omega), hz]
  simp only
  rw [List.getElem?_append_right (by omega), hlen, Nat.add_sub_cancel_left,
    CipherMetadataHeader_getElem?, if_pos hi, List.getElem?_drop,
    List.getElem?_eq_getElem hin, List.getD_eq_getElem?_getD, List.getElem?_eq_getElem hin]
  have hq : i / 64 % 2 ^ 32 = i / 64 := Nat.mod_eq_of_lt (by omega)
  simp only [Option.map_some', Option.getD_some, loopKeystream, hq]

theorem DecryptGlobalMetadataHeader_window_witness :
    (8 < ([0xAF, 0x1B, 0xB1, 0xFA, 0x1D, 0, 0, 0, 0x58] : List Nat).length ∧
     ([0xAF, 0x1B, 0xB1, 0xFA, 0x1D, 0, 0, 0, 0x58] : List Nat).length < 2 ^ 63 ∧
     [0xAF, 0x1B, 0xB1, 0xFA, 0x1D, 0, 0, 0, 0x58].take 4 = markerBytes ∧
     0 < min 0x200 (([0xAF, 0x1B, 0xB1, 0xFA, 0x1D, 0, 0, 0, 0x58] : List Nat).length - 8)) ∧
    ((DecryptGlobalMetadataHeader [0xAF, 0x1B, 0xB1, 0xFA, 0x1D, 0, 0, 0, 0x58]
        ([0xAF, 0x1B, 0xB1, 0xFA, 0x1D, 0, 0, 0, 0x58] : List Nat).length
        "global-metadata.dat").1[8 + 0]? =
      some (([0xAF, 0x1B, 0xB1, 0xFA, 0x1D, 0, 0, 0, 0x58] : List Nat).getD (8 + 0) 0 ^^^
        (ChaCha20Block kKey (0 / 64) kNonce).getD (0 % 64) 0)
    ∧ (ChaCha20Block kKey (0 / 64) kNonce).length = 64) :=
  ⟨⟨by decide, by decide, by decide, by decide⟩,
    DecryptGlobalMetadataHeader_window _ _ 0 (by decide) (by decide) (by decide) (by decide)⟩

/-- C3: for a buffer of length `size > 8` (an `int64_t`) that starts with the
marker, `DecryptGlobalMetadataHeader` keeps the length of the buffer and every
byte at an index below 8 or at or beyond `8 + min(0x200, size - 8)`. -/
theorem DecryptGlobalMetadataHeader_frame (buffer : List Nat) (path : String) (j : Nat)
    (hsize : 8 < buffer.length) (hint : buffer.length < 2 ^ 63)
    (hmarker : buffer.take 4 = markerBytes)
    (hj : j < 8 ∨ 8 + min 0x200 (buffer.length - 8) ≤ j) :
    (DecryptGlobalMetadataHeader buffer buffer.length path).1.length = buffer.length ∧
    (DecryptGlobalMetadataHeader buffer buffer.length path).1[j]? = buffer[j]? := by
  have hs := readSanity_of_marker buffer hmarker
  have hz := toSizeT_length buffer hint
  have hlen : (buffer.take 8).length = 8 := by
    rw [List.length_take]
    omega
  rw [decrypt_applied _ _ _ (by omega) hs (by omega), hz]
  simp only
  constructor
  · rw [List.length_append, hlen, CipherMetadataHeader_length, List.length_drop]
    omega
  · rcases hj with hj | hj
    · rw [List.getElem?_append_left (by omega), List.getElem?_take_of_lt hj]
    · have hk : ¬ (j - 8 < min 0x200 (buffer.length - 8)) := by omega
      have hjk : 8 + (j - 8) = j := by omega
      rw [List.getElem?_append_right (by omega), hlen, CipherMetadataHeader_getElem?,
        if_neg hk, List.getElem?_drop, hjk]

theorem DecryptGlobalMetadataHeader_frame_witness :
    (8 < (markerBytes ++ List.replicate 10004 0x5A).length ∧
     (markerBytes ++ List.replicate 10004 0x5A).length < 2 ^ 63 ∧
     (markerBytes ++ List.replicate 10004 0x5A).take 4 = markerBytes ∧
     ((8 + 0x200) < 8 ∨
       8 + min 0x200 ((markerBytes ++ List.replicate 10004 0x5A).length - 8) ≤ 8 + 0x200)) ∧
    ((DecryptGlobalMetadataHeader (markerBytes ++ List.replicate 10004 0x5A)
        (markerBytes ++ List.replicate 10004 0x5A).length "global-metadata.dat").1.length
      = (markerBytes ++ List.replicate 10004 0x5A).length ∧
     (DecryptGlobalMetadataHeader (markerBytes ++ List.replicate 10004 0x5A)
        (markerBytes ++ List.replicate 10004 0x5A).length "global-metadata.dat").1[8 + 0x200]?
      = (markerBytes ++ List.replicate 10004 0x5A)[8 + 0x200]?) :=
  have h1 : (markerBytes ++ List.replicate 10004 0x5A).length = 10008 := by
    rw [List.length_append, List.length_replicate]
    rfl
  have h2 : (markerBytes ++ List.replicate 10004 0x5A).take 4 = markerBytes :=
    List.take_left' rfl
  have h3 : (8 + 0x200) < 8 ∨
      8 + min 0x200 ((markerBytes ++ List.replicate 10004 0x5A).length - 8) ≤ 8 + 0x200 := by
    rw [h1]
    decide
  ⟨⟨by rw [h1]; decide, by rw [h1]; decide, h2, h3⟩,
    DecryptGlobalMetadataHeader_frame _ _ (8 + 0x200) (by rw [h1]; decide)
      (by rw [h1]; decide) h2 h3⟩

/-- C4: for a buffer of bytes whose first four bytes are not exactly
`AF 1B B1 FA`, `DecryptGlobalMetadataHeader` leaves the buffer unchanged,
whatever `fileSize` is. -/
theorem DecryptGlobalMetadataHeader_marker_mismatch (buffer : List Nat) (fileSize : Int)
    (path : String) (hb : isBytes buffer) (hm : buffer.take 4 ≠ markerBytes) :
    (DecryptGlobalMetadataHeader buffer fileSize path).1 = buffer := by
  by_cases h8 : fileSize < 8
  · rw [decrypt_small _ _ _ h8]
  · have hs : readSanity buffer ≠ kMetadataMagic :=
      fun h => hm (marker_of_readSanity buffer hb h)
    rw [decrypt_mismatch _ _ _ h8 hs]

theorem DecryptGlobalMetadataHeader_marker_mismatch_witness :
    (isBytes [0xAF, 0x1B, 0xB1, 0x7A, 0x1D, 0, 0, 0, 0x58, 0x01, 0, 0] ∧
     [0xAF, 0x1B, 0xB1, 0x7A, 0x1D, 0, 0, 0, 0x58, 0x01, 0, 0].take 4 ≠ markerBytes) ∧
    (DecryptGlobalMetadataHeader [0xAF, 0x1B, 0xB1, 0x7A, 0x1D, 0, 0, 0, 0x58, 0x01, 0, 0]
        12 "global-metadata.dat").1
      = [0xAF, 0x1B, 0xB1, 0x7A, 0x1D, 0, 0, 0, 0x58, 0x01, 0, 0] :=
  ⟨⟨by decide, by decide⟩,
    DecryptGlobalMetadataHeader_marker_mismatch _ 12 _ (by decide) (by decide)⟩

/-- C5: for every buffer and every `fileSize <= 8`, negative values included,
`DecryptGlobalMetadataHeader` leaves the buffer unchanged, also when the marker
is valid. -/
theorem DecryptGlobalMetadataHeader_too_small (buffer : List Nat) (fileSize : Int)
    (path : String) (h : fileSize ≤ 8) :
    (DecryptGlobalMetadataHeader buffer fileSize path).1 = buffer := by
  by_cases h8 : fileSize < 8
  · rw [decrypt_small _ _ _ h8]
  · have he : fileSize = 8 := by omega
    subst he
    by_cases hs : readSanity buffer = kMetadataMagic
    · rw [decrypt_noRoom _ _ _ h8 hs (by decide)]
    · rw [decrypt_mismatch _ _ _ h8 hs]

theorem DecryptGlobalMetadataHeader_too_small_witness :
    ((8 : Int) ≤ 8 ∧ (-3 : Int) ≤ 8) ∧
    (DecryptGlobalMetadataHeader [0xAF, 0x1B, 0xB1, 0xFA, 0x1D, 0, 0, 0] 8
        "global-metadata.dat").1 = [0xAF, 0x1B, 0xB1, 0xFA, 0x1D, 0, 0, 0] ∧
    (DecryptGlobalMetadataHeader [0xAF, 0x1B, 0xB1, 0xFA, 0x1D, 0, 0, 0] (-3)
        "global-metadata.dat").1 = [0xAF, 0x1B, 0xB1, 0xFA, 0x1D, 0, 0, 0] :=
  ⟨⟨by decide, by decide⟩,
    DecryptGlobalMetadataHeader_too_small _ 8 _ (by decide),
    DecryptGlobalMetadataHeader_too_small _ (-3) _ (by decide)⟩

set_option maxRecDepth 100000 in
/-- C6: with a key of 32 zero bytes, a nonce of 12 zero bytes and counter 0,
the block produced by `ChaCha20Block` starts with `76 B8 E0 AD` (RFC 8439,
appendix A.1, test vector 1). -/
theorem ChaCha20Block_zero_key_vector :
    (ChaCha20Block (List.replicate 32 0) 0 (List.replicate 12 0)).take 4
      = [0x76, 0xB8, 0xE0, 0xAD] := by
  decide

set_option maxRecDepth 100000 in
/-- C7: with the key `00 01 .. 1F`, the nonce `00 00 00 09 00 00 00 4A 00 00 00 00`
and counter 1, the block produced by `ChaCha20Block` starts with the sixteen
bytes `10 F1 E7 E4 D1 3B 59 15 50 0F DD 1F A3 20 71 C4` (RFC 8439, 2.3.2). -/
theorem ChaCha20Block_rfc8439_2_3_2 :
    (ChaCha20Block
      [0x00, 0x01, 0x02, 0x03, 0x04, 0x05, 0x06, 0x07,
       0x08, 0x09, 0x0A, 0x0B, 0x0C, 0x0D, 0x0E, 0x0F,
       0x10, 0x11, 0x12, 0x13, 0x14, 0x15, 0x16, 0x17,
       0x18, 0x19, 0x1A, 0x1B, 0x1C, 0x1D, 0x1E, 0x1F]
      1
      [0x00, 0x00, 0x00, 0x09, 0x00, 0x00, 0x00, 0x4A, 0x00, 0x00, 0x00, 0x00]).take 16
      = [0x10, 0xF1, 0xE7, 0xE4, 0xD1, 0x3B, 0x59, 0x15,
         0x50, 0x0F, 0xDD, 0x1F, 0xA3, 0x20, 0x71, 0xC4] := by
  decide

/-- C8: `CipherMetadataHeader` is its own inverse: applied twice to a byte
sequence, with `size` equal to its length, it returns the sequence. -/
theorem CipherMetadataHeader_involution (data : List Nat) :
    CipherMetadataHeader (CipherMetadataHeader data data.length) data.length = data :=
  CipherMetadataHeader_twice data data.length

/-- C9, counterexample: called on an empty buffer with `fileSize = 0`,
`DecryptGlobalMetadataHeader` is not silent: it is false that the buffer is
unchanged and the log is empty. -/
theorem DecryptGlobalMetadataHeader_empty_not_silent :
    ¬ ((DecryptGlobalMetadataHeader [] 0 "global-metadata.dat").1 = [] ∧
       (DecryptGlobalMetadataHeader [] 0 "global-metadata.dat").2 = []) := by
  decide

/-- C9, amended: with `fileSize = 0`, `DecryptGlobalMetadataHeader` returns the
buffer unchanged and writes exactly one diagnostic, the "Metadata too small"
error with size 0; the silent return on `size == 0` is that of
`CipherMetadataHeader`, which returns its data unchanged. -/
theorem DecryptGlobalMetadataHeader_zero_size (buffer data : List Nat) (path : String) :
    DecryptGlobalMetadataHeader buffer 0 path =
      (buffer, [⟨"ERROR: Metadata too small: %s (size=%lld)", path, 0⟩]) ∧
    CipherMetadataHeader data 0 = data := by
  constructor
  · exact decrypt_small buffer 0 path (by decide)
  · rfl

/-- C10: for a buffer of bytes and an `int64_t` `fileSize`,
`DecryptGlobalMetadataHeader` writes exactly one diagnostic when
`1 <= fileSize <= 7`, when `fileSize >= 8` and the first four bytes are not the
marker, and when `fileSize = 8` with a valid marker; it writes none when
`fileSize > 8` with a valid marker, the case in which the mask is applied. -/
theorem DecryptGlobalMetadataHeader_diagnostics (buffer : List Nat) (fileSize : Int)
    (path : String) (hb : isBytes buffer) (hint : fileSize < 2 ^ 63) :
    (1 ≤ fileSize ∧ fileSize ≤ 7 →
      (DecryptGlobalMetadataHeader buffer fileSize path).2.length = 1) ∧
    (8 ≤ fileSize ∧ buffer.take 4 ≠ markerBytes →
      (DecryptGlobalMetadataHeader buffer fileSize path).2.length = 1) ∧
    (fileSize = 8 ∧ buffer.take 4 = markerBytes →
      (DecryptGlobalMetadataHeader buffer fileSize path).2.length = 1) ∧
    (8 < fileSize ∧ buffer.take 4 = markerBytes →
      (DecryptGlobalMetadataHeader buffer fileSize path).2 = [] ∧
      (DecryptGlobalMetadataHeader buffer fileSize path).1 =
        buffer.take 8 ++
          CipherMetadataHeader (buffer.drop 8) (min 0x200 (fileSize.toNat - 8))) := by
  refine ⟨?_, ?_, ?_, ?_⟩
  · rintro ⟨_, h7⟩
    rw [decrypt_small _ _ _ (by omega)]
    rfl
  · rintro ⟨h8, hm⟩
    have hs : readSanity buffer ≠ kMetadataMagic :=
      fun h => hm (marker_of_readSanity buffer hb h)
    rw [decrypt_mismatch _ _ _ (by omega) hs]
    rfl
  · rintro ⟨h8, hm⟩
    subst h8
    rw [decrypt_noRoom _ _ _ (by decide) (readSanity_of_marker buffer hm) (by decide)]
    rfl
  · rintro ⟨h8, hm⟩
    have hz := toSizeT_of_nonneg fileSize (by omega) (by omega)
    have hr : ¬ toSizeT fileSize ≤ 8 := by
      rw [hz]
      omega
    rw [decrypt_applied _ _ _ (by omega) (readSanity_of_marker buffer hm) hr, hz]
    exact ⟨rfl, rfl⟩

theorem DecryptGlobalMetadataHeader_diagnostics_witness :
    (DecryptGlobalMetadataHeader [0xAF, 0x1B, 0xB1, 0xFA, 0x1D, 0, 0] 7
      "global-metadata.dat").2.length = 1 ∧
    (DecryptGlobalMetadataHeader [0x00, 0x1B, 0xB1, 0xFA, 0x1D, 0, 0, 0, 0x58] 9
      "global-metadata.dat").2.length = 1 ∧
    (DecryptGlobalMetadataHeader [0xAF, 0x1B, 0xB1, 0xFA, 0x1D, 0, 0, 0] 8
      "global-metadata.dat").2.length = 1 ∧
    (DecryptGlobalMetadataHeader [0xAF, 0x1B, 0xB1, 0xFA, 0x1D, 0, 0, 0, 0x58] 9
      "global-metadata.dat").2 = [] :=
  ⟨(DecryptGlobalMetadataHeader_diagnostics [0xAF, 0x1B, 0xB1, 0xFA, 0x1D, 0, 0] 7 _
      (by decide) (by decide)).1 ⟨by decide, by decide⟩,
   (DecryptGlobalMetadataHeader_diagnostics [0x00, 0x1B, 0xB1, 0xFA, 0x1D, 0, 0, 0, 0x58] 9 _
      (by decide) (by decide)).2.1 ⟨by decide, by decide⟩,
   (DecryptGlobalMetadataHeader_diagnostics [0xAF, 0x1B, 0xB1, 0xFA, 0x1D, 0, 0, 0] 8 _
      (by decide) (by decide)).2.2.1 ⟨by decide, by decide⟩,
   ((DecryptGlobalMetadataHeader_diagnostics [0xAF, 0x1B, 0xB1, 0xFA, 0x1D, 0, 0, 0, 0x58] 9 _
      (by decide) (by decide)).2.2.2 ⟨by decide, by decide⟩).1⟩

/-- C11: `QuarterRound` maps the input of RFC 8439, section 2.1.1,
`(0x11111111, 0x01020304, 0x9b8d6f43, 0x01234567)`, to
`(0xea2a92f4, 0xcb1cf8ce, 0x4581472e, 0x5881c4bb)`. -/
theorem QuarterRound_rfc8439_2_1_1 :
    QuarterRound 0x11111111 0x01020304 0x9b8d6f43 0x01234567
      = (0xea2a92f4, 0xcb1cf8ce, 0x4581472e, 0x5881c4bb) := by
  decide

/-! ## The little-endian helpers as arithmetic -/

theorem or_shifted (i x y : Nat) (hx : x < 2 ^ i) : x ||| 2 ^ i * y = x + 2 ^ i * y := by
  rw [Nat.or_comm, ← Nat.mul_add_lt_is_or hx y, Nat.add_comm]

theorem and_0xFF (x : Nat) : x &&& 0xFF = x % 256 :=
  Nat.and_pow_two_sub_one_eq_mod x 8

theorem LoadLE_bytes (b0 b1 b2 b3 : Nat) (h0 : b0 < 256) (h1 : b1 < 256) (h2 : b2 < 256)
    (h3 : b3 < 256) :
    LoadLE [b0, b1, b2, b3] = b0 + 2 ^ 8 * b1 + 2 ^ 16 * b2 + 2 ^ 24 * b3 := by
  have e1 : (b1 <<< 8) % 2 ^ 32 = 2 ^ 8 * b1 := by
    rw [Nat.shiftLeft_eq]
    omega
  have e2 : (b2 <<< 16) % 2 ^ 32 = 2 ^ 16 * b2 := by
    rw [Nat.shiftLeft_eq]
    omega
  have e3 : (b3 <<< 24) % 2 ^ 32 = 2 ^ 24 * b3 := by
    rw [Nat.shiftLeft_eq]
    omega
  simp only [LoadLE, List.getD_cons_zero, List.getD_cons_succ]
  rw [e1, e2, e3, or_shifted 8 b0 b1 (by omega), or_shifted 16 _ b2 (by omega),
    or_shifted 24 _ b3 (by omega)]

theorem StoreLE_eq (v : Nat) :
    StoreLE v = [v % 256, v / 2 ^ 8 % 256, v / 2 ^ 16 % 256, v / 2 ^ 24 % 256] := by
  simp only [StoreLE, and_0xFF, Nat.shiftRight_eq_div_pow]

/-- C17: for a 32-bit word `v`, `LoadLE` of the four bytes `StoreLE` writes is
`v`; for four bytes `b0 .. b3`, `StoreLE` of the word `LoadLE` reads writes the
same four bytes back, and that word is `b0 + 2^8 * b1 + 2^16 * b2 + 2^24 * b3`. -/
theorem LoadLE_StoreLE_inverse :
    (∀ v : Nat, v < 2 ^ 32 → LoadLE (StoreLE v) = v) ∧
    (∀ b0 b1 b2 b3 : Nat, b0 < 256 → b1 < 256 → b2 < 256 → b3 < 256 →
      StoreLE (LoadLE [b0, b1, b2, b3]) = [b0, b1, b2, b3] ∧
      LoadLE [b0, b1, b2, b3] = b0 + 2 ^ 8 * b1 + 2 ^ 16 * b2 + 2 ^ 24 * b3) := by
  constructor
  · intro v hv
    rw [StoreLE_eq, LoadLE_bytes _ _ _ _ (Nat.mod_lt _ (by decide))
      (Nat.mod_lt _ (by decide)) (Nat.mod_lt _ (by decide)) (Nat.mod_lt _ (by decide))]
    omega
  · intro b0 b1 b2 b3 h0 h1 h2 h3
    refine ⟨?_, LoadLE_bytes b0 b1 b2 b3 h0 h1 h2 h3⟩
    rw [LoadLE_bytes b0 b1 b2 b3 h0 h1 h2 h3, StoreLE_eq]
    have e0 : (b0 + 2 ^ 8 * b1 + 2 ^ 16 * b2 + 2 ^ 24 * b3) % 256 = b0 := by omega
    have e1 : (b0 + 2 ^ 8 * b1 + 2 ^ 16 * b2 + 2 ^ 24 * b3) / 2 ^ 8 % 256 = b1 := by omega
    have e2 : (b0 + 2 ^ 8 * b1 + 2 ^ 16 * b2 + 2 ^ 24 * b3) / 2 ^ 16 % 256 = b2 := by omega
    have e3 : (b0 + 2 ^ 8 * b1 + 2 ^ 16 * b2 + 2 ^ 24 * b3) / 2 ^ 24 % 256 = b3 := by omega
    rw [e0, e1, e2, e3]

theorem LoadLE_StoreLE_inverse_witness :
    ((0xFAB11BAF : Nat) < 2 ^ 32 ∧ (0xAF : Nat) < 256 ∧ (0x1B : Nat) < 256 ∧
      (0xB1 : Nat) < 256 ∧ (0xFA : Nat) < 256) ∧
    LoadLE (StoreLE 0xFAB11BAF) = 0xFAB11BAF ∧
    StoreLE (LoadLE [0xAF, 0x1B, 0xB1, 0xFA]) = [0xAF, 0x1B, 0xB1, 0xFA] ∧
    LoadLE [0xAF, 0x1B, 0xB1, 0xFA] = 0xAF + 2 ^ 8 * 0x1B + 2 ^ 16 * 0xB1 + 2 ^ 24 * 0xFA :=
  ⟨⟨by decide, by decide, by decide, by decide, by decide⟩,
    LoadLE_StoreLE_inverse.1 0xFAB11BAF (by decide),
    LoadLE_StoreLE_inverse.2 0xAF 0x1B 0xB1 0xFA (by decide) (by decide) (by decide)
      (by decide)⟩

/-! ## The eight blocks of a header window -/

set_option maxRecDepth 100000 in
theorem ChaCha20Block_first_bytes (c : Nat) (hc : c < 8) :
    (ChaCha20Block kKey c kNonce).take 4 = blockPrefixes.getD c [] := by
  interval_cases c <;> decide

/-- C14: under the embedded key and nonce, the blocks `ChaCha20Block` produces
for two different counters among 0, 1, ..., 7 are different; in particular a
block differs from the block of the next counter. -/
theorem ChaCha20Block_counters_distinct (i j : Nat) (hi : i < 8) (hj : j < 8)
    (hne : i ≠ j) :
    ChaCha20Block kKey i kNonce ≠ ChaCha20Block kKey j kNonce := by
  intro heq
  have h := congrArg (List.take 4) heq
  rw [ChaCha20Block_first_bytes i hi, ChaCha20Block_first_bytes j hj] at h
  interval_cases i <;> interval_cases j <;>
    first
    | exact hne rfl
    | exact absurd h (by decide)

theorem ChaCha20Block_counters_distinct_witness :
    ((0 : Nat) < 8 ∧ (1 : Nat) < 8 ∧ (0 : Nat) ≠ 1) ∧
    ChaCha20Block kKey 0 kNonce ≠ ChaCha20Block kKey 1 kNonce :=
  ⟨⟨by decide, by decide, by decide⟩,
    ChaCha20Block_counters_distinct 0 1 (by decide) (by decide) (by decide)⟩

/-! ## Rotations as arithmetic -/

theorem RotL32_eq (v c : Nat) (hc : c = 7 ∨ c = 8 ∨ c = 12 ∨ c = 16) (hv : v < 2 ^ 32) :
    RotL32 v c = 2 ^ c * (v % 2 ^ (32 - c)) + v / 2 ^ (32 - c) := by
  unfold RotL32
  rw [Nat.shiftLeft_eq, Nat.shiftRight_eq_div_pow]
  rcases hc with rfl | rfl | rfl | rfl
  · have e : v * 2 ^ 7 % 2 ^ 32 = 2 ^ 7 * (v % 2 ^ (32 - 7)) := by omega
    have hlt : v / 2 ^ (32 - 7) < 2 ^ 7 := by omega
    rw [e, ← Nat.mul_add_lt_is_or hlt]
  · have e : v * 2 ^ 8 % 2 ^ 32 = 2 ^ 8 * (v % 2 ^ (32 - 8)) := by omega
    have hlt : v / 2 ^ (32 - 8) < 2 ^ 8 := by omega
    rw [e, ← Nat.mul_add_lt_is_or hlt]
  · have e : v * 2 ^ 12 % 2 ^ 32 = 2 ^ 12 * (v % 2 ^ (32 - 12)) := by omega
    have hlt : v / 2 ^ (32 - 12) < 2 ^ 12 := by omega
    rw [e, ← Nat.mul_add_lt_is_or hlt]
  · have e : v * 2 ^ 16 % 2 ^ 32 = 2 ^ 16 * (v % 2 ^ (32 - 16)) := by omega
    have hlt : v / 2 ^ (32 - 16) < 2 ^ 16 := by omega
    rw [e, ← Nat.mul_add_lt_is_or hlt]

theorem RotR32_eq (v c : Nat) (hc : c = 7 ∨ c = 8 ∨ c = 12 ∨ c = 16) (hv : v < 2 ^ 32) :
    RotR32 v c = 2 ^ (32 - c) * (v % 2 ^ c) + v / 2 ^ c := by
  unfold RotR32
  rw [Nat.shiftLeft_eq, Nat.shiftRight_eq_div_pow, Nat.or_comm]
  rcases hc with rfl | rfl | rfl | rfl
  · have e : v * 2 ^ (32 - 7) % 2 ^ 32 = 2 ^ (32 - 7) * (v % 2 ^ 7) := by omega
    have hlt : v / 2 ^ 7 < 2 ^ (32 - 7) := by omega
    rw [e, ← Nat.mul_add_lt_is_or hlt]
  · have e : v * 2 ^ (32 - 8) % 2 ^ 32 = 2 ^ (32 - 8) * (v % 2 ^ 8) := by omega
    have hlt : v / 2 ^ 8 < 2 ^ (32 - 8) := by omega
    rw [e, ← Nat.mul_add_lt_is_or hlt]
  · have e : v * 2 ^ (32 - 12) % 2 ^ 32 = 2 ^ (32 - 12) * (v % 2 ^ 12) := by omega
    have hlt : v / 2 ^ 12 < 2 ^ (32 - 12) := by omega
    rw [e, ← Nat.mul_add_lt_is_or hlt]
  · have e : v * 2 ^ (32 - 16) % 2 ^ 32 = 2 ^ (32 - 16) * (v % 2 ^ 16) := by omega
    have hlt : v / 2 ^ 16 < 2 ^ (32 - 16) := by omega
    rw [e, ← Nat.mul_add_lt_is_or hlt]

theorem RotL32_lt (v c : Nat) (hc : c = 7 ∨ c = 8 ∨ c = 12 ∨ c = 16) (hv : v < 2 ^ 32) :
    RotL32 v c < 2 ^ 32 := by
  rw [RotL32_eq v c hc hv]
  rcases hc with rfl | rfl | rfl | rfl <;> omega

theorem RotR32_lt (v c : Nat) (hc : c = 7 ∨ c = 8 ∨ c = 12 ∨ c = 16) (hv : v < 2 ^ 32) :
    RotR32 v c < 2 ^ 32 := by
  rw [RotR32_eq v c hc hv]
  rcases hc with rfl | rfl | rfl | rfl <;> omega

theorem RotR32_RotL32 (v c : Nat) (hc : c = 7 ∨ c = 8 ∨ c = 12 ∨ c = 16) (hv : v < 2 ^ 32) :
    RotR32 (RotL32 v c) c = v := by
  rw [RotR32_eq _ c hc (RotL32_lt v c hc hv), RotL32_eq v c hc hv]
  rcases hc with rfl | rfl | rfl | rfl <;> omega

theorem RotL32_RotR32 (v c : Nat) (hc : c = 7 ∨ c = 8 ∨ c = 12 ∨ c = 16) (hv : v < 2 ^ 32) :
    RotL32 (RotR32 v c) c = v := by
  rw [RotL32_eq _ c hc (RotR32_lt v c hc hv), RotR32_eq v c hc hv]
  rcases hc with rfl | rfl | rfl | rfl <;> omega

/-! ## The quarter-round and its inverse -/

theorem unmix (x y k : Nat) (hk : k = 7 ∨ k = 8 ∨ k = 12 ∨ k = 16) (hx : x < 2 ^ 32)
    (hy : y < 2 ^ 32) : RotR32 (RotL32 (x ^^^ y) k) k ^^^ y = x := by
  rw [RotR32_RotL32 _ k hk (Nat.xor_lt_two_pow hx hy), Nat.xor_cancel_right]

theorem remix (x y k : Nat) (hk : k = 7 ∨ k = 8 ∨ k = 12 ∨ k = 16) (hx : x < 2 ^ 32) :
    RotL32 (RotR32 x k ^^^ y ^^^ y) k = x := by
  rw [Nat.xor_cancel_right, RotL32_RotR32 x k hk hx]

theorem add_then_sub (x y : Nat) (hx : x < 2 ^ 32) (hy : y < 2 ^ 32) :
    ((x + y) % 2 ^ 32 + 2 ^ 32 - y) % 2 ^ 32 = x := by
  omega

theorem sub_then_add (x y : Nat) (hx : x < 2 ^ 32) (hy : y < 2 ^ 32) :
    ((x + 2 ^ 32 - y) % 2 ^ 32 + y) % 2 ^ 32 = x := by
  omega

theorem QuarterRound_isWords (a b c d : Nat) (h : isWords (a, b, c, d)) :
    isWords (QuarterRound a b c d) := by
  obtain ⟨ha, hb, hc, hd⟩ := h
  have hM : ∀ x, x % 2 ^ 32 < 2 ^ 32 := fun x => Nat.mod_lt _ (by decide)
  refine ⟨hM _, ?_, hM _, ?_⟩
  · exact RotL32_lt _ 7 (by simp) (Nat.xor_lt_two_pow
      (RotL32_lt _ 12 (by simp) (Nat.xor_lt_two_pow hb (hM _))) (hM _))
  · exact RotL32_lt _ 8 (by simp) (Nat.xor_lt_two_pow
      (RotL32_lt _ 16 (by simp) (Nat.xor_lt_two_pow hd (hM _))) (hM _))

theorem QuarterRoundInv_isWords (a b c d : Nat) (h : isWords (a, b, c, d)) :
    isWords (QuarterRoundInv a b c d) := by
  obtain ⟨ha, hb, hc, hd⟩ := h
  have hM : ∀ x, x % 2 ^ 32 < 2 ^ 32 := fun x => Nat.mod_lt _ (by decide)
  have hb1 : RotR32 b 7 ^^^ c < 2 ^ 32 :=
    Nat.xor_lt_two_pow (RotR32_lt b 7 (by simp) hb) hc
  have hd1 : RotR32 d 8 ^^^ a < 2 ^ 32 :=
    Nat.xor_lt_two_pow (RotR32_lt d 8 (by simp) hd) ha
  refine ⟨hM _, ?_, hM _, ?_⟩
  · exact Nat.xor_lt_two_pow (RotR32_lt _ 12 (by simp) hb1) (hM _)
  · exact Nat.xor_lt_two_pow (RotR32_lt _ 16 (by simp) hd1) (hM _)

theorem QuarterRoundInv_QuarterRound (a b c d : Nat) (h : isWords (a, b, c, d)) :
    onWords QuarterRoundInv (QuarterRound a b c d) = (a, b, c, d) := by
  obtain ⟨ha, hb, hc, hd⟩ := h
  have hM : ∀ x, x % 2 ^ 32 < 2 ^ 32 := fun x => Nat.mod_lt _ (by decide)
  have key : ∀ a1 d1 c1 b1 a2 d2 c2 b2 : Nat,
      a1 = (a + b) % 2 ^ 32 → d1 = RotL32 (d ^^^ a1) 16 →
      c1 = (c + d1) % 2 ^ 32 → b1 = RotL32 (b ^^^ c1) 12 →
      a2 = (a1 + b1) % 2 ^ 32 → d2 = RotL32 (d1 ^^^ a2) 8 →
      c2 = (c1 + d2) % 2 ^ 32 → b2 = RotL32 (b1 ^^^ c2) 7 →
      QuarterRoundInv a2 b2 c2 d2 = (a, b, c, d) := by
    intro a1 d1 c1 b1 a2 d2 c2 b2 ea1 ed1 ec1 eb1 ea2 ed2 ec2 eb2
    have ha1 : a1 < 2 ^ 32 := ea1 ▸ hM _
    have hd1 : d1 < 2 ^ 32 := ed1 ▸ RotL32_lt _ 16 (by simp) (Nat.xor_lt_two_pow hd ha1)
    have hc1 : c1 < 2 ^ 32 := ec1 ▸ hM _
    have hb1 : b1 < 2 ^ 32 := eb1 ▸ RotL32_lt _ 12 (by simp) (Nat.xor_lt_two_pow hb hc1)
    have ha2 : a2 < 2 ^ 32 := ea2 ▸ hM _
    have hd2 : d2 < 2 ^ 32 := ed2 ▸ RotL32_lt _ 8 (by simp) (Nat.xor_lt_two_pow hd1 ha2)
    have hc2 : c2 < 2 ^ 32 := ec2 ▸ hM _
    have r1 : RotR32 b2 7 ^^^ c2 = b1 := by
      rw [eb2]
      exact unmix b1 c2 7 (by simp) hb1 hc2
    have r2 : (c2 + 2 ^ 32 - d2) % 2 ^ 32 = c1 := by
      rw [ec2]
      exact add_then_sub c1 d2 hc1 hd2
    have r3 : RotR32 d2 8 ^^^ a2 = d1 := by
      rw [ed2]
      exact unmix d1 a2 8 (by simp) hd1 ha2
    have r4 : (a2 + 2 ^ 32 - b1) % 2 ^ 32 = a1 := by
      rw [ea2]
      exact add_then_sub a1 b1 ha1 hb1
    have r5 : RotR32 b1 12 ^^^ c1 = b := by
      rw [eb1]
      exact unmix b c1 12 (by simp) hb hc1
    have r6 : (c1 + 2 ^ 32 - d1) % 2 ^ 32 = c := by
      rw [ec1]
      exact add_then_sub c d1 hc hd1
    have r7 : RotR32 d1 16 ^^^ a1 = d := by
      rw [ed1]
      exact unmix d a1 16 (by simp) hd ha1
    have r8 : (a1 + 2 ^ 32 - b) % 2 ^ 32 = a := by
      rw [ea1]
      exact add_then_sub a b ha hb
    simp only [QuarterRoundInv, r1, r2, r3, r4, r5, r6, r7, r8]
  exact key _ _ _ _ _ _ _ _ rfl rfl rfl rfl rfl rfl rfl rfl

theorem QuarterRound_QuarterRoundInv (a b c d : Nat) (h : isWords (a, b, c, d)) :
    onWords QuarterRound (QuarterRoundInv a b c d) = (a, b, c, d) := by
  obtain ⟨ha, hb, hc, hd⟩ := h
  have hM : ∀ x, x % 2 ^ 32 < 2 ^ 32 := fun x => Nat.mod_lt _ (by decide)
  have key : ∀ b1 c1 d1 a1 b0 c0 d0 a0 : Nat,
      b1 = RotR32 b 7 ^^^ c → c1 = (c + 2 ^ 32 - d) % 2 ^ 32 →
      d1 = RotR32 d 8 ^^^ a → a1 = (a + 2 ^ 32 - b1) % 2 ^ 32 →
      b0 = RotR32 b1 12 ^^^ c1 → c0 = (c1 + 2 ^ 32 - d1) % 2 ^ 32 →
      d0 = RotR32 d1 16 ^^^ a1 → a0 = (a1 + 2 ^ 32 - b0) % 2 ^ 32 →
      QuarterRound a0 b0 c0 d0 = (a, b, c, d) := by
    intro b1 c1 d1 a1 b0 c0 d0 a0 eb1 ec1 ed1 ea1 eb0 ec0 ed0 ea0
    have hb1 : b1 < 2 ^ 32 := eb1 ▸ Nat.xor_lt_two_pow (RotR32_lt b 7 (by simp) hb) hc
    have hc1 : c1 < 2 ^ 32 := ec1 ▸ hM _
    have hd1 : d1 < 2 ^ 32 := ed1 ▸ Nat.xor_lt_two_pow (RotR32_lt d 8 (by simp) hd) ha
    have ha1 : a1 < 2 ^ 32 := ea1 ▸ hM _
    have hb0 : b0 < 2 ^ 32 :=
      eb0 ▸ Nat.xor_lt_two_pow (RotR32_lt b1 12 (by simp) hb1) hc1
    have r1 : (a0 + b0) % 2 ^ 32 = a1 := by
      rw [ea0]
      exact sub_then_add a1 b0 ha1 hb0
    have r2 : RotL32 (d0 ^^^ a1) 16 = d1 := by
      rw [ed0]
      exact remix d1 a1 16 (by simp) hd1
    have r3 : (c0 + d1) % 2 ^ 32 = c1 := by
      rw [ec0]
      exact sub_then_add c1 d1 hc1 hd1
    have r4 : RotL32 (b0 ^^^ c1) 12 = b1 := by
      rw [eb0]
      exact remix b1 c1 12 (by simp) hb1
    have r5 : (a1 + b1) % 2 ^ 32 = a := by
      rw [ea1]
      exact sub_then_add a b1 ha hb1
    have r6 : RotL32 (d1 ^^^ a) 8 = d := by
      rw [ed1]
      exact remix d a 8 (by simp) hd
    have r7 : (c1 + d) % 2 ^ 32 = c := by
      rw [ec1]
      exact sub_then_add c d hc hd
    have r8 : RotL32 (b1 ^^^ c) 7 = b := by
      rw [eb1]
      exact remix b c 7 (by simp) hb
    simp only [QuarterRound, r1, r2, r3, r4, r5, r6, r7, r8]
  exact key _ _ _ _ _ _ _ _ rfl rfl rfl rfl rfl rfl rfl rfl

/-- C18: on quadruples of 32-bit words `QuarterRound` is a bijection:
`QuarterRound` and `QuarterRoundInv` map such quadruples to such quadruples,
`QuarterRoundInv` restores `(a, b, c, d)` from the output of `QuarterRound`, and
`QuarterRound` restores it from the output of `QuarterRoundInv`; so
`QuarterRound` is injective and every quadruple is one of its outputs. -/
theorem QuarterRound_bijection (a b c d : Nat) (h : isWords (a, b, c, d)) :
    isWords (QuarterRound a b c d) ∧
    isWords (QuarterRoundInv a b c d) ∧
    onWords QuarterRoundInv (QuarterRound a b c d) = (a, b, c, d) ∧
    onWords QuarterRound (QuarterRoundInv a b c d) = (a, b, c, d) ∧
    (∀ a' b' c' d' : Nat, isWords (a', b', c', d') →
      QuarterRound a b c d = QuarterRound a' b' c' d' → (a, b, c, d) = (a', b', c', d')) ∧
    (∃ r, isWords r ∧ onWords QuarterRound r = (a, b, c, d)) := by
  refine ⟨QuarterRound_isWords a b c d h, QuarterRoundInv_isWords a b c d h,
    QuarterRoundInv_QuarterRound a b c d h, QuarterRound_QuarterRoundInv a b c d h, ?_,
    ⟨QuarterRoundInv a b c d, QuarterRoundInv_isWords a b c d h,
      QuarterRound_QuarterRoundInv a b c d h⟩⟩
  intro a' b' c' d' h' heq
  rw [← QuarterRoundInv_QuarterRound a b c d h, heq,
    QuarterRoundInv_QuarterRound a' b' c' d' h']

theorem QuarterRound_bijection_witness :
    isWords (0x11111111, 0x01020304, 0x9b8d6f43, 0x01234567) ∧
    (isWords (QuarterRound 0x11111111 0x01020304 0x9b8d6f43 0x01234567) ∧
    isWords (QuarterRoundInv 0x11111111 0x01020304 0x9b8d6f43 0x01234567) ∧
    onWords QuarterRoundInv (QuarterRound 0x11111111 0x01020304 0x9b8d6f43 0x01234567)
      = (0x11111111, 0x01020304, 0x9b8d6f43, 0x01234567) ∧
    onWords QuarterRound (QuarterRoundInv 0x11111111 0x01020304 0x9b8d6f43 0x01234567)
      = (0x11111111, 0x01020304, 0x9b8d6f43, 0x01234567) ∧
    (∀ a' b' c' d' : Nat, isWords (a', b', c', d') →
      QuarterRound 0x11111111 0x01020304 0x9b8d6f43 0x01234567 = QuarterRound a' b' c' d' →
      (0x11111111, 0x01020304, 0x9b8d6f43, 0x01234567) = (a', b', c', d')) ∧
    (∃ r, isWords r ∧
      onWords QuarterRound r = (0x11111111, 0x01020304, 0x9b8d6f43, 0x01234567))) :=
  ⟨by decide, QuarterRound_bijection _ _ _ _ (by decide)⟩

/-! ## The iterations of the block loop -/

theorem cipherStep_iterate (size : Nat) (data : List Nat) (k : Nat) :
    (Nat.iterate (cipherStep size) k (data, 0, 0)).2.2 = min (64 * k) size ∧
    (Nat.iterate (cipherStep size) k (data, 0, 0)).2.1 = k % 2 ^ 32 := by
  induction k with
  | zero => exact ⟨by simp, rfl⟩
  | succ k ih =>
    rw [Function.iterate_succ_apply']
    obtain ⟨h1, h2⟩ := ih
    constructor
    · show (Nat.iterate (cipherStep size) k (data, 0, 0)).2.2 +
        min 64 (size - (Nat.iterate (cipherStep size) k (data, 0, 0)).2.2) = _
      rw [h1]
      omega
    · show ((Nat.iterate (cipherStep size) k (data, 0, 0)).2.1 + 1) % 2 ^ 32 = _
      rw [h2, Nat.add_mod k 1, Nat.add_mod (k % 2 ^ 32) 1, Nat.mod_mod]

theorem cipherLoop_eq_iterate (size : Nat) :
    ∀ (m : Nat) (data : List Nat) (counter offset : Nat), size - offset ≤ m →
      cipherLoop size data counter offset =
        Nat.iterate (cipherStep size) ((size - offset + 63) / 64) (data, counter, offset) := by
  intro m
  induction m with
  | zero =>
    intro data counter offset hm
    have hn : (size - offset + 63) / 64 = 0 := by omega
    rw [cipherLoop_exit size data counter offset (by omega), hn]
    rfl
  | succ m ih =>
    intro data counter offset hm
    by_cases hlt : offset < size
    · have hn : (size - offset + 63) / 64 =
          (size - (offset + min 64 (size - offset)) + 63) / 64 + 1 := by omega
      rw [cipherLoop_step size data counter offset hlt, ih _ _ _ (by omega), hn,
        Function.iterate_succ_apply]
      rfl
    · have hn : (size - offset + 63) / 64 = 0 := by omega
      rw [cipherLoop_exit size data counter offset (by omega), hn]
      rfl

/-- C13: the loop of `CipherMetadataHeader` terminates for every size: it
leaves after exactly `ceil(size / 64)` passes through its body, with
`offset = size`; before each of these passes `offset < size`, the pass
consumes `min(64, size - offset) >= 1` bytes, the offset grows strictly and
stays at most `size`, and every index `offset + i` it touches is below `size`. -/
theorem cipherLoop_terminates (size : Nat) (data : List Nat) :
    cipherLoop size data 0 0
      = Nat.iterate (cipherStep size) ((size + 63) / 64) (data, 0, 0) ∧
    (cipherLoop size data 0 0).2.2 = size ∧
    ∀ k, k < (size + 63) / 64 →
      (Nat.iterate (cipherStep size) k (data, 0, 0)).2.2 < size ∧
      1 ≤ min 64 (size - (Nat.iterate (cipherStep size) k (data, 0, 0)).2.2) ∧
      (Nat.iterate (cipherStep size) k (data, 0, 0)).2.2
        < (Nat.iterate (cipherStep size) (k + 1) (data, 0, 0)).2.2 ∧
      (Nat.iterate (cipherStep size) (k + 1) (data, 0, 0)).2.2 ≤ size ∧
      ∀ i, i < min 64 (size - (Nat.iterate (cipherStep size) k (data, 0, 0)).2.2) →
        (Nat.iterate (cipherStep size) k (data, 0, 0)).2.2 + i < size := by
  have hloop := cipherLoop_eq_iterate size size data 0 0 (by omega)
  rw [Nat.sub_zero] at hloop
  refine ⟨hloop, ?_, ?_⟩
  · rw [hloop, (cipherStep_iterate size data _).1]
    omega
  · intro k hk
    rw [(cipherStep_iterate size data k).1, (cipherStep_iterate size data (k + 1)).1]
    refine ⟨by omega, by omega, by omega, by omega, fun i hi => by omega⟩

theorem cipherLoop_terminates_witness :
    (1 : Nat) < (100 + 63) / 64 ∧
    (Nat.iterate (cipherStep 100) 1 (List.replicate 100 0, 0, 0)).2.2 < 100 ∧
    (cipherLoop 100 (List.replicate 100 0) 0 0).2.2 = 100 :=
  ⟨by decide,
    ((cipherLoop_terminates 100 (List.replicate 100 0)).2.2 1 (by decide)).1,
    (cipherLoop_terminates 100 (List.replicate 100 0)).2.1⟩

/-! ## The counters passed to the block function -/

theorem cipherLoopRecorded_exit (size : Nat) (data : List Nat) (counter offset : Nat)
    (calls : List Nat) (h : size ≤ offset) :
    cipherLoopRecorded size data counter offset calls = ((data, counter, offset), calls) := by
  rw [cipherLoopRecorded, if_neg (Nat.not_lt.mpr h)]

theorem cipherLoopRecorded_step (size : Nat) (data : List Nat) (counter offset : Nat)
    (calls : List Nat) (h : offset < size) :
    cipherLoopRecorded size data counter offset calls =
      cipherLoopRecorded size
        (xorBlock data (ChaCha20Block kKey counter kNonce) offset (min 64 (size - offset)))
        ((counter + 1) % 2 ^ 32) (offset + min 64 (size - offset)) (calls ++ [counter]) := by
  rw [cipherLoopRecorded, if_pos h]
  simp only [recordedBlock]

/-- Recording the calls does not change what the loop computes. -/
theorem cipherLoopRecorded_fst (size : Nat) :
    ∀ (m : Nat) (data : List Nat) (counter offset : Nat) (calls : List Nat),
      size - offset ≤ m →
      (cipherLoopRecorded size data counter offset calls).1
        = cipherLoop size data counter offset := by
  intro m
  induction m with
  | zero =>
    intro data counter offset calls hm
    rw [cipherLoopRecorded_exit size data counter offset calls (by omega),
      cipherLoop_exit size data counter offset (by omega)]
  | succ m ih =>
    intro data counter offset calls hm
    by_cases hlt : offset < size
    · rw [cipherLoopRecorded_step size data counter offset calls hlt,
        cipherLoop_step size data counter offset hlt, ih _ _ _ _ (by omega)]
    · rw [cipherLoopRecorded_exit size data counter offset calls (by omega),
        cipherLoop_exit size data counter offset (by omega)]

theorem cipherLoopRecorded_snd (size : Nat) :
    ∀ (m k : Nat) (data calls : List Nat), size - 64 * k ≤ m →
      (cipherLoopRecorded size data (k % 2 ^ 32) (64 * k) calls).2 =
        calls ++ (List.range' k ((size + 63) / 64 - k)).map (fun c => c % 2 ^ 32) := by
  intro m
  induction m with
  | zero =>
    intro k data calls hm
    have hn : (size + 63) / 64 - k = 0 := by omega
    rw [cipherLoopRecorded_exit size data _ _ calls (by omega), hn]
    simp
  | succ m ih =>
    intro k data calls hm
    by_cases hlt : 64 * k < size
    · rw [cipherLoopRecorded_step size data _ _ calls hlt]
      by_cases hfull : 64 ≤ size - 64 * k
      · have hmin : min 64 (size - 64 * k) = 64 := Nat.min_eq_left hfull
        have hoff : 64 * k + 64 = 64 * (k + 1) := by ring
        have hctr : (k % 2 ^ 32 + 1) % 2 ^ 32 = (k + 1) % 2 ^ 32 := by
          rw [Nat.add_mod k 1, Nat.add_mod (k % 2 ^ 32) 1, Nat.mod_mod]
        have hn : (size + 63) / 64 - k = ((size + 63) / 64 - (k + 1)) + 1 := by omega
        rw [hmin, hctr, hoff, ih (k + 1) _ _ (by omega), hn, List.range'_succ,
          List.map_cons, List.append_assoc, List.singleton_append]
      · have hmin : min 64 (size - 64 * k) = size - 64 * k :=
          Nat.min_eq_right (by omega)
        have hoff : 64 * k + (size - 64 * k) = size := by omega
        have hn : (size + 63) / 64 - k = 0 + 1 := by omega
        rw [hmin, hoff, cipherLoopRecorded_exit size _ _ _ _ (Nat.le_refl _), hn,
          List.range'_succ, List.map_cons]
        rfl
    · have hn : (size + 63) / 64 - k = 0 := by omega
      rw [cipherLoopRecorded_exit size data _ _ calls (by omega), hn]
      simp

theorem CipherMetadataHeaderRecorded_fst (data : List Nat) (size : Nat) :
    (CipherMetadataHeaderRecorded data size).1 = CipherMetadataHeader data size := by
  unfold CipherMetadataHeaderRecorded CipherMetadataHeader
  by_cases hs : size = 0
  · rw [if_pos hs, if_pos hs]
  · rw [if_neg hs, if_neg hs]
    exact congrArg Prod.fst (cipherLoopRecorded_fst size size data 0 0 [] (by omega))

theorem CipherMetadataHeaderRecorded_snd (data : List Nat) (size : Nat) (h : size ≤ 0x200) :
    (CipherMetadataHeaderRecorded data size).2 = List.range ((size + 63) / 64) := by
  unfold CipherMetadataHeaderRecorded
  by_cases hs : size = 0
  · subst hs
    rfl
  · rw [if_neg hs]
    have hc := cipherLoopRecorded_snd size size 0 data [] (by omega)
    rw [Nat.zero_mod, Nat.mul_zero, Nat.sub_zero, List.nil_append] at hc
    show (cipherLoopRecorded size data 0 0 []).2 = _
    rw [hc, List.range_eq_range']
    have hid : ∀ c ∈ List.range' 0 ((size + 63) / 64), c % 2 ^ 32 = id c := by
      intro c hc'
      rw [List.mem_range'_1] at hc'
      exact Nat.mod_eq_of_lt (by omega)
    rw [List.map_congr_left hid, List.map_id]

/-- Recording the calls does not change what `DecryptGlobalMetadataHeader`
returns, whatever the buffer, the size and the path are. -/
theorem DecryptGlobalMetadataHeaderRecorded_fst (buffer : List Nat) (fileSize : Int)
    (path : String) :
    (DecryptGlobalMetadataHeaderRecorded buffer fileSize path).1
      = DecryptGlobalMetadataHeader buffer fileSize path := by
  unfold DecryptGlobalMetadataHeaderRecorded DecryptGlobalMetadataHeader
  by_cases h8 : fileSize < 8
  · rw [if_pos h8, if_pos h8]
  · rw [if_neg h8, if_neg h8]
    simp only
    by_cases hs : readSanity buffer ≠ kMetadataMagic
    · rw [if_pos hs, if_pos hs]
    · rw [if_neg hs, if_neg hs]
      by_cases hr : toSizeT fileSize ≤ 8
      · rw [if_pos hr, if_pos hr]
      · rw [if_neg hr, if_neg hr, CipherMetadataHeaderRecorded_fst]

theorem cipherLoop_final_counter (size : Nat) (data : List Nat) :
    (cipherLoop size data 0 0).2.1 = (size + 63) / 64 % 2 ^ 32 := by
  have hloop := cipherLoop_eq_iterate size size data 0 0 (by omega)
  rw [Nat.sub_zero] at hloop
  rw [hloop, (cipherStep_iterate _ _ _).2]

theorem decrypt_applied_loop (buffer : List Nat) (path : String)
    (hsize : 8 < buffer.length) (hint : buffer.length < 2 ^ 63)
    (hmarker : buffer.take 4 = markerBytes) :
    (DecryptGlobalMetadataHeader buffer buffer.length path).1
      = buffer.take 8 ++
        (cipherLoop (min 0x200 (buffer.length - 8)) (buffer.drop 8) 0 0).1 := by
  have hs := readSanity_of_marker buffer hmarker
  have hz := toSizeT_length buffer hint
  have hw : ¬ (min 0x200 (buffer.length - 8) = 0) := by omega
  rw [decrypt_applied _ _ _ (by omega) hs (by omega), hz]
  simp only [CipherMetadataHeader, if_neg hw]

/-- C12, counterexample: for a buffer of `8 + 0x200` bytes that starts with the
marker, the call applies the mask through the loop run
`cipherLoop 0x200 (buffer.drop 8) 0 0`, and the counter of this loop ends at 8:
it is false that the counter never exceeds 7. -/
theorem DecryptGlobalMetadataHeader_counter_exceeds_7 :
    (DecryptGlobalMetadataHeader (markerBytes ++ List.replicate 516 0x5A)
        (markerBytes ++ List.replicate 516 0x5A).length "global-metadata.dat").1
      = (markerBytes ++ List.replicate 516 0x5A).take 8 ++
        (cipherLoop (min 0x200 ((markerBytes ++ List.replicate 516 0x5A).length - 8))
          ((markerBytes ++ List.replicate 516 0x5A).drop 8) 0 0).1 ∧
    (cipherLoop (min 0x200 ((markerBytes ++ List.replicate 516 0x5A).length - 8))
      ((markerBytes ++ List.replicate 516 0x5A).drop 8) 0 0).2.1 = 8 ∧
    ¬ ((cipherLoop (min 0x200 ((markerBytes ++ List.replicate 516 0x5A).length - 8))
      ((markerBytes ++ List.replicate 516 0x5A).drop 8) 0 0).2.1 ≤ 7) := by
  have h1 : (markerBytes ++ List.replicate 516 0x5A).length = 520 := by
    rw [List.length_append, List.length_replicate]
    rfl
  have h2 : (markerBytes ++ List.replicate 516 0x5A).take 4 = markerBytes :=
    List.take_left' rfl
  have h3 : (cipherLoop (min 0x200 ((markerBytes ++ List.replicate 516 0x5A).length - 8))
      ((markerBytes ++ List.replicate 516 0x5A).drop 8) 0 0).2.1 = 8 := by
    rw [cipherLoop_final_counter, h1]
    decide
  refine ⟨decrypt_applied_loop _ _ (by rw [h1]; decide) (by rw [h1]; decide) h2, h3, ?_⟩
  rw [h3]
  decide

/-- C12, amended: in a call of `DecryptGlobalMetadataHeader` that applies the
mask (a buffer of length `size > 8`, an `int64_t`, that starts with the
marker), with `w = min(0x200, size - 8)`: recording the calls of
`ChaCha20Block` does not change what the call returns, which is the result of
the loop run `cipherLoop w (buffer + 8) 0 0`; the counters passed to
`ChaCha20Block` are `0, 1, ..., ceil(w / 64) - 1` in this order, so there are
`ceil(w / 64) <= 8` calls and no counter passed exceeds 7; the counter
variable ends at `ceil(w / 64)`, at most 8 and below `2 ^ 32`, so it has not
wrapped. -/
theorem DecryptGlobalMetadataHeader_block_counters (buffer : List Nat) (path : String)
    (hsize : 8 < buffer.length) (hint : buffer.length < 2 ^ 63)
    (hmarker : buffer.take 4 = markerBytes) :
    (DecryptGlobalMetadataHeaderRecorded buffer buffer.length path).1
      = DecryptGlobalMetadataHeader buffer buffer.length path ∧
    (DecryptGlobalMetadataHeader buffer buffer.length path).1
      = buffer.take 8 ++
        (cipherLoop (min 0x200 (buffer.length - 8)) (buffer.drop 8) 0 0).1 ∧
    (DecryptGlobalMetadataHeaderRecorded buffer buffer.length path).2
      = List.range ((min 0x200 (buffer.length - 8) + 63) / 64) ∧
    (DecryptGlobalMetadataHeaderRecorded buffer buffer.length path).2.length
      = (min 0x200 (buffer.length - 8) + 63) / 64 ∧
    (min 0x200 (buffer.length - 8) + 63) / 64 ≤ 8 ∧
    (∀ c ∈ (DecryptGlobalMetadataHeaderRecorded buffer buffer.length path).2, c ≤ 7) ∧
    (cipherLoop (min 0x200 (buffer.length - 8)) (buffer.drop 8) 0 0).2.1
      = (min 0x200 (buffer.length - 8) + 63) / 64 ∧
    (min 0x200 (buffer.length - 8) + 63) / 64 < 2 ^ 32 := by
  have hs := readSanity_of_marker buffer hmarker
  have hz := toSizeT_length buffer hint
  have hcalls : (DecryptGlobalMetadataHeaderRecorded buffer buffer.length path).2
      = List.range ((min 0x200 (buffer.length - 8) + 63) / 64) := by
    have h8 : ¬ ((buffer.length : Int) < 8) := by omega
    have hr : ¬ (buffer.length ≤ 8) := by omega
    simp only [DecryptGlobalMetadataHeaderRecorded, if_neg h8, hs, ne_eq, not_true_eq_false,
      if_false, hz, if_neg hr, kHeaderEncryptSize]
    exact CipherMetadataHeaderRecorded_snd _ _ (Nat.min_le_left _ _)
  refine ⟨DecryptGlobalMetadataHeaderRecorded_fst buffer _ path,
    decrypt_applied_loop buffer path hsize hint hmarker, hcalls, ?_, by omega, ?_, ?_,
    by omega⟩
  · rw [hcalls, List.length_range]
  · intro c hc
    rw [hcalls, List.mem_range] at hc
    omega
  · rw [cipherLoop_final_counter]
    exact Nat.mod_eq_of_lt (by omega)

theorem DecryptGlobalMetadataHeader_block_counters_witness :
    (8 < (markerBytes ++ List.replicate 10004 0x5A).length ∧
     (markerBytes ++ List.replicate 10004 0x5A).length < 2 ^ 63 ∧
     (markerBytes ++ List.replicate 10004 0x5A).take 4 = markerBytes) ∧
    (DecryptGlobalMetadataHeaderRecorded (markerBytes ++ List.replicate 10004 0x5A)
        (markerBytes ++ List.replicate 10004 0x5A).length "global-metadata.dat").1
      = DecryptGlobalMetadataHeader (markerBytes ++ List.replicate 10004 0x5A)
        (markerBytes ++ List.replicate 10004 0x5A).length "global-metadata.dat" ∧
    (DecryptGlobalMetadataHeaderRecorded (markerBytes ++ List.replicate 10004 0x5A)
        (markerBytes ++ List.replicate 10004 0x5A).length "global-metadata.dat").2
      = List.range
        ((min 0x200 ((markerBytes ++ List.replicate 10004 0x5A).length - 8) + 63) / 64) :=
  have h1 : (markerBytes ++ List.replicate 10004 0x5A).length = 10008 := by
    rw [List.length_append, List.length_replicate]
    rfl
  have h2 : (markerBytes ++ List.replicate 10004 0x5A).take 4 = markerBytes :=
    List.take_left' rfl
  ⟨⟨by rw [h1]; decide, by rw [h1]; decide, h2⟩,
    (DecryptGlobalMetadataHeader_block_counters _ "global-metadata.dat" (by rw [h1]; decide)
      (by rw [h1]; decide) h2).1,
    (DecryptGlobalMetadataHeader_block_counters _ "global-metadata.dat" (by rw [h1]; decide)
      (by rw [h1]; decide) h2).2.2.1⟩

/-! ## Independence of the mask from the data -/

theorem DecryptGlobalMetadataHeader_frame_length (buffer : List Nat) (path : String)
    (hsize : 8 < buffer.length) (hint : buffer.length < 2 ^ 63)
    (hmarker : buffer.take 4 = markerBytes) :
    (DecryptGlobalMetadataHeader buffer buffer.length path).1.length = buffer.length := by
  have hs := readSanity_of_marker buffer hmarker
  have hz := toSizeT_length buffer hint
  rw [decrypt_applied _ _ _ (by omega) hs (by omega), hz]
  simp only
  rw [List.length_append, List.length_take, CipherMetadataHeader_length, List.length_drop]
  omega


/-- C15: for a sequence `d` and `m <= d.length`, `CipherMetadataHeader` on the
first `m` bytes of `d` agrees at every index `i < m` with
`CipherMetadataHeader` on all of `d`; and for any two sequences that hold the
same byte at an index `i` inside both, the bytes written at `i` are the same,
whatever the two sizes are. -/
theorem CipherMetadataHeader_prefix_consistent (d : List Nat) (m i : Nat) (hm : m ≤ d.length)
    (hi : i < m) :
    (CipherMetadataHeader (d.take m) m)[i]? = (CipherMetadataHeader d d.length)[i]? ∧
    ∀ e : List Nat, i < e.length → e[i]? = d[i]? →
      (CipherMetadataHeader e e.length)[i]? = (CipherMetadataHeader d d.length)[i]? := by
  constructor
  · rw [CipherMetadataHeader_getElem?, CipherMetadataHeader_getElem?, if_pos hi,
      if_pos (by omega), List.getElem?_take_of_lt hi]
  · intro e he hed
    rw [CipherMetadataHeader_getElem?, CipherMetadataHeader_getElem?, if_pos he,
      if_pos (by omega), hed]

theorem CipherMetadataHeader_prefix_consistent_witness :
    ((3 : Nat) ≤ ([0x11, 0x22, 0x33, 0x44, 0x55] : List Nat).length ∧ (2 : Nat) < 3) ∧
    (CipherMetadataHeader (([0x11, 0x22, 0x33, 0x44, 0x55] : List Nat).take 3) 3)[2]? =
      (CipherMetadataHeader [0x11, 0x22, 0x33, 0x44, 0x55]
        ([0x11, 0x22, 0x33, 0x44, 0x55] : List Nat).length)[2]? :=
  ⟨⟨by decide, by decide⟩,
    (CipherMetadataHeader_prefix_consistent [0x11, 0x22, 0x33, 0x44, 0x55] 3 2 (by decide)
      (by decide)).1⟩

theorem decrypt_getElem? (buffer : List Nat) (path : String) (j : Nat)
    (hsize : 8 < buffer.length) (hint : buffer.length < 2 ^ 63)
    (hmarker : buffer.take 4 = markerBytes) :
    (DecryptGlobalMetadataHeader buffer buffer.length path).1[j]? =
      if 8 ≤ j ∧ j < 8 + min 0x200 (buffer.length - 8) then
        buffer[j]?.map (fun x => x ^^^ loopKeystream (j - 8))
      else buffer[j]? := by
  have hs := readSanity_of_marker buffer hmarker
  have hz := toSizeT_length buffer hint
  have hlen : (buffer.take 8).length = 8 := by
    rw [List.length_take]
    omega
  rw [decrypt_applied _ _ _ (by omega) hs (by omega), hz]
  simp only
  by_cases h8 : j < 8
  · have hw : ¬ (8 ≤ j ∧ j < 8 + min 0x200 (buffer.length - 8)) := by omega
    rw [if_neg hw, List.getElem?_append_left (by omega), List.getElem?_take_of_lt h8]
  · have hjk : 8 + (j - 8) = j := by omega
    rw [List.getElem?_append_right (by omega), hlen, CipherMetadataHeader_getElem?,
      List.getElem?_drop, hjk]
    by_cases hw : j - 8 < min 0x200 (buffer.length - 8)
    · rw [if_pos hw, if_pos (by omega)]
    · rw [if_neg hw, if_neg (by omega)]

/-- C16: for two buffers of the same length `size > 8` (an `int64_t`) that both
start with the marker, the outputs of `DecryptGlobalMetadataHeader` have that
same length, and at every index the XOR of the two output bytes equals the XOR
of the two input bytes. -/
theorem DecryptGlobalMetadataHeader_xor_difference (b1 b2 : List Nat) (p1 p2 : String)
    (j : Nat) (hlen : b1.length = b2.length) (hsize : 8 < b1.length)
    (hint : b1.length < 2 ^ 63) (hm1 : b1.take 4 = markerBytes)
    (hm2 : b2.take 4 = markerBytes) (hj : j < b1.length) :
    (DecryptGlobalMetadataHeader b1 b1.length p1).1.length = b1.length ∧
    (DecryptGlobalMetadataHeader b2 b2.length p2).1.length = b2.length ∧
    (DecryptGlobalMetadataHeader b1 b1.length p1).1.getD j 0 ^^^
        (DecryptGlobalMetadataHeader b2 b2.length p2).1.getD j 0
      = b1.getD j 0 ^^^ b2.getD j 0 := by
  have hj2 : j < b2.length := by omega
  refine ⟨(DecryptGlobalMetadataHeader_frame_length b1 p1 hsize hint hm1),
    (DecryptGlobalMetadataHeader_frame_length b2 p2 (by omega) (by omega) hm2), ?_⟩
  simp only [List.getD_eq_getElem?_getD]
  rw [decrypt_getElem? b1 p1 j hsize hint hm1,
    decrypt_getElem? b2 p2 j (by omega) (by omega) hm2, ← hlen,
    List.getElem?_eq_getElem hj, List.getElem?_eq_getElem hj2]
  by_cases hw : 8 ≤ j ∧ j < 8 + min 0x200 (b1.length - 8)
  · rw [if_pos hw, if_pos hw]
    simp only [Option.map_some', Option.getD_some]
    rw [Nat.xor_assoc, Nat.xor_comm b2[j], ← Nat.xor_assoc (loopKeystream (j - 8)),
      Nat.xor_self, Nat.zero_xor]
  · rw [if_neg hw, if_neg hw]

theorem DecryptGlobalMetadataHeader_xor_difference_witness :
    (([0xAF, 0x1B, 0xB1, 0xFA, 0x1D, 0, 0, 0, 0x58, 0x01] : List Nat).length
        = ([0xAF, 0x1B, 0xB1, 0xFA, 0x1F, 0, 0, 0, 0x90, 0x7C] : List Nat).length ∧
     8 < ([0xAF, 0x1B, 0xB1, 0xFA, 0x1D, 0, 0, 0, 0x58, 0x01] : List Nat).length ∧
     ([0xAF, 0x1B, 0xB1, 0xFA, 0x1D, 0, 0, 0, 0x58, 0x01] : List Nat).length < 2 ^ 63 ∧
     [0xAF, 0x1B, 0xB1, 0xFA, 0x1D, 0, 0, 0, 0x58, 0x01].take 4 = markerBytes ∧
     [0xAF, 0x1B, 0xB1, 0xFA, 0x1F, 0, 0, 0, 0x90, 0x7C].take 4 = markerBytes ∧
     9 < ([0xAF, 0x1B, 0xB1, 0xFA, 0x1D, 0, 0, 0, 0x58, 0x01] : List Nat).length) ∧
    (DecryptGlobalMetadataHeader [0xAF, 0x1B, 0xB1, 0xFA, 0x1D, 0, 0, 0, 0x58, 0x01]
        ([0xAF, 0x1B, 0xB1, 0xFA, 0x1D, 0, 0, 0, 0x58, 0x01] : List Nat).length
        "global-metadata.dat").1.getD 9 0 ^^^
      (DecryptGlobalMetadataHeader [0xAF, 0x1B, 0xB1, 0xFA, 0x1F, 0, 0, 0, 0x90, 0x7C]
        ([0xAF, 0x1B, 0xB1, 0xFA, 0x1F, 0, 0, 0, 0x90, 0x7C] : List Nat).length
        "global-metadata.dat").1.getD 9 0
      = ([0xAF, 0x1B, 0xB1, 0xFA, 0x1D, 0, 0, 0, 0x58, 0x01] : List Nat).getD 9 0 ^^^
        ([0xAF, 0x1B, 0xB1, 0xFA, 0x1F, 0, 0, 0, 0x90, 0x7C] : List Nat).getD 9 0 :=
  ⟨⟨by decide, by decide, by decide, by decide, by decide, by decide⟩,
    (DecryptGlobalMetadataHeader_xor_difference _ _ _ _ 9 (by decide) (by decide)
      (by decide) (by decide) (by decide) (by decide)).2.2⟩
